import Mathlib

/-!
Verification development for the mobx-state-tree core: tree-node lifecycle,
reconciliation, patch emission, protection and path resolution.

The definitions below are shallow embeddings of the TypeScript source:
`Node` (core/node.ts), `reconcileArrayChildren` / `ArrayType` (types/complex-types/array.ts)
and the tree operations (`hasParent`, `getParent`, `walk`, `tryResolve`, ...).
JavaScript machine values that the algorithms inspect (`typeof`, object-key
coercion, `parseInt`) are modelled explicitly.
-/

namespace MST

/-- JavaScript primitive values, as far as the embedded algorithms inspect them:
`typeof v` being `string`/`number`, and coercion to an object key. Numbers are
modelled as integers (the identifiers and array indices the code handles). -/
inductive JsPrim where
  | str (s : String)
  | num (n : Int)
  | boolVal (b : Bool)
  | nullVal
  | undefVal
  deriving Repr, DecidableEq

/-- Models the JS test `typeof id === "string" || typeof id === "number"`. -/
def JsPrim.isStrOrNum : JsPrim → Bool
  | .str _ => true
  | .num _ => true
  | _ => false

/-- Coercion of a value to a JS object key (property name), as performed when a
value is used to index an object: `obj[v]` uses `String(v)`. -/
def JsPrim.toKey : JsPrim → String
  | .str s => s
  | .num n => toString n
  | .boolVal true => "true"
  | .boolVal false => "false"
  | .nullVal => "null"
  | .undefVal => "undefined"

/-- Snapshots: the plain-data projection of a stored value. An array node's
snapshot maps each child node to its snapshot (`ArrayType.getSnapshot`), and a
child's snapshot is `undefined` (`none`) when that child is dead
(`Node.snapshot` returns `undefined` for dead nodes). -/
inductive Snap where
  | prim (v : JsPrim)
  | arr (xs : List (Option Snap))
  deriving Repr

/-! ### Error messages

Shortened but recognizable forms of the `fail(...)` messages in the source
(dynamic interpolations such as node paths are elided). -/

def deadMsg : String :=
  "cannot be used anymore as it has died; it has been removed from a state tree"

def protectedMsg : String :=
  "the object is protected and can only be modified by using an action"

def twiceMsg : String := "A node cannot exists twice in the state tree"

def containMsg : String := "A state tree is not allowed to contain itself"

def envMsg : String :=
  "A state tree that has been initialized with an environment cannot be made part of another state tree"

def alreadyPartMsg : String :=
  "Cannot add an object to a state tree if it is already part of the same or another state tree"

def notChildMsg (key : String) : String := "Not a child: " ++ key

def couldNotResolveMsg (part : String) : String :=
  "Could not resolve " ++ part ++ ", path of the patch does not resolve"

/-- JS runtime error raised when the loop in `resolvePath` dereferences
`current!.root` or `current!.parent` while `current` is `undefined`. -/
def typeErrorMsg : String := "TypeError: cannot read properties of undefined"

def invalidDepthMsg (depth : Int) : String :=
  "Invalid depth: " ++ toString depth ++ ", should be >= 1"

def parentNotFoundMsg (depth : Int) : String :=
  "Failed to find the parent at depth " ++ toString depth

/-! ## The node tree

A `Node`'s per-instance state, as read by the embedded operations. The tree
shape itself (the `storedValue` children of complex nodes) is carried by the
surrounding rose tree `NTree`; parent links are represented by the position of
a node in that tree (a node is addressed by its reversed index path, so the
parent of `k :: p` is `p`, and the root is `[]`). -/
structure NRec where
  /-- `Node._isAlive` -/
  alive : Bool := true
  /-- `Node._isDetaching` -/
  detaching : Bool := false
  /-- whether `isStateTreeNode(node.storedValue)` holds, i.e. the stored value
  is a mutable, non-frozen object carrying `$treenode` (complex nodes); false
  for primitive and frozen stored values -/
  valueIsTreeNode : Bool := true
  /-- the stored value of a primitive node (ignored when `valueIsTreeNode`) -/
  scalarValue : JsPrim := JsPrim.undefVal
  /-- `addReadOnlyProp(this, "snapshot", this.snapshot)` performed by
  `finalizeDeath`: once `some frozen`, the stored property shadows the
  computed `snapshot` getter -/
  frozenSnapshot : Option (Option Snap) := none
  /-- `Node.isProtectionEnabled` (root-only relevance) -/
  protectionEnabled : Bool := true
  /-- `Node._isRunningAction` -/
  runningAction : Bool := false
  deriving Repr

mutual
/-- A tree of live nodes: a node record plus its children
(`type.getChildren(node)`, in order). -/
inductive NTree where
  | node (rec : NRec) (kids : NForest)
  deriving Repr
/-- The ordered children of a node. -/
inductive NForest where
  | nil
  | cons (hd : NTree) (tl : NForest)
  deriving Repr
end

def NTree.recOf : NTree → NRec
  | .node r _ => r

def NTree.kidsOf : NTree → NForest
  | .node _ k => k

def NForest.get? : NForest → Nat → Option NTree
  | .nil, _ => none
  | .cons h _, 0 => some h
  | .cons _ t, n + 1 => NForest.get? t n

def NForest.length : NForest → Nat
  | .nil => 0
  | .cons _ t => NForest.length t + 1

/-- Number of children of a node (`node.storedValue.length` for arrays). -/
def NTree.numKids (t : NTree) : Nat := t.kidsOf.length

/-- Reversed paths address nodes: `[]` is the root, `k :: p` is the `k`-th
child of the node addressed by `p`. The parent link of the source (`_parent`)
is the tail of the reversed path. -/
abbrev RPath := List Nat

/-- Look up the node addressed by a reversed path. -/
def subtreeAt (t : NTree) : RPath → Option NTree
  | [] => some t
  | k :: rest =>
    match subtreeAt t rest with
    | some s => s.kidsOf.get? k
    | none => none

/-- The `root` getter walks the parent chain to the node without a parent:
on reversed paths this drops every step. -/
def rootOfPath : RPath → RPath
  | [] => []
  | _ :: rest => rootOfPath rest

/-- `Node.isRunningAction()`: true if this node runs an action, otherwise ask
the parent; a root without the flag answers false. `none` only when the path
does not address a node. -/
def isRunningActionAt (t : NTree) : RPath → Option Bool
  | [] =>
    match subtreeAt t [] with
    | some s => if s.recOf.runningAction then some true else some false
    | none => none
  | k :: rest =>
    match subtreeAt t (k :: rest) with
    | some s =>
      if s.recOf.runningAction then some true
      else isRunningActionAt t rest
    | none => none

/-- `Node.isProtected`: the root's `isProtectionEnabled`. -/
def isProtectedAt (t : NTree) (p : RPath) : Option Bool :=
  (subtreeAt t (rootOfPath p)).map (fun s => s.recOf.protectionEnabled)

/-- `Node.assertAlive()`. -/
def assertAliveAt (t : NTree) (p : RPath) : Except String Unit :=
  match subtreeAt t p with
  | none => .error "model: unresolved path"
  | some s => if s.recOf.alive then .ok () else .error deadMsg

/-- `Node.assertWritable()`: `assertAlive`, then fail when no action is
running on the path to the root while the tree is protected. -/
def assertWritableAt (t : NTree) (p : RPath) : Except String Unit :=
  match subtreeAt t p with
  | none => .error "model: unresolved path"
  | some s =>
    if s.recOf.alive then
      match isRunningActionAt t p, isProtectedAt t p with
      | some false, some true => .error protectedMsg
      | _, _ => .ok ()
    else .error deadMsg

/-- `protect(target)`: requires a root and sets `isProtectionEnabled`. -/
def protectTree : NTree → NTree
  | .node r k => .node { r with protectionEnabled := true } k

/-- `unprotect(target)`. -/
def unprotectTree : NTree → NTree
  | .node r k => .node { r with protectionEnabled := false } k

/-! ## Snapshot computation and death

`Node.snapshot` (computed getter) composed with `ArrayType.getSnapshot`
(children mapped to their snapshots); a node killed earlier carries a stored
`frozenSnapshot` that shadows the getter. -/

mutual
def snapshotOf : NTree → Option Snap
  | .node r kids =>
    match r.frozenSnapshot with
    | some s => s
    | none =>
      if r.alive then
        if r.valueIsTreeNode then some (Snap.arr (snapshotForest kids))
        else some (Snap.prim r.scalarValue)
      else none
def snapshotForest : NForest → List (Option Snap)
  | .nil => []
  | .cons h tl => snapshotOf h :: snapshotForest tl
end

mutual
/-- Whether `walk` (mst-operations) succeeds starting at this node: each
visited node's `getChildren()` calls `assertAlive()`; the walk recurses only
into children whose stored value is a tree node. -/
def walkOk : NTree → Bool
  | .node r kids => r.alive && walkOkForest kids
def walkOkForest : NForest → Bool
  | .nil => true
  | .cons h tl =>
    (if h.recOf.valueIsTreeNode then walkOk h else true) && walkOkForest tl
end

/-- `Node.finalizeDeath` on one node: capture the current snapshot into a
read-only property, clear subscribers, mark dead. (Severing `_parent` and
clearing `subpath` have no observable counterpart in this tree view; the
identifier cache is derived from live nodes, so `notifyDied` is implicit.) -/
def finalizeSelf : NTree → NTree
  | t@(.node r kids) =>
    .node { r with frozenSnapshot := some (snapshotOf t), alive := false } kids

mutual
/-- The `finalizeDeath` phase of `die`: `walk` fires the processor for
children before self, recursing only into tree-node-valued children. -/
def finalizeWalk : NTree → NTree
  | .node r kids => finalizeSelf (.node r (finalizeWalkForest kids))
def finalizeWalkForest : NForest → NForest
  | .nil => .nil
  | .cons h tl =>
    .cons (if h.recOf.valueIsTreeNode then finalizeWalk h else h)
      (finalizeWalkForest tl)
end

/-- `Node.die()`: no-op while mid-detach; when the stored value is a tree
node, walk the subtree twice (`aboutToDie` — disposers and the beforeDestroy
hook, which do not touch the modelled state — then `finalizeDeath`); when the
stored value is not a tree node (primitive or frozen), nothing happens. The
walks throw the dead-node assertion if `getChildren` hits a dead node. -/
def dieTree (t : NTree) : Except String NTree :=
  if t.recOf.detaching then .ok t
  else if t.recOf.valueIsTreeNode then
    if walkOk t then .ok (finalizeWalk t) else .error deadMsg
  else .ok t

/-! ## Path resolution (`Node.resolvePath`, `ArrayType.getChildNode`) -/

/-- Value of the longest leading digit run (radix 10). -/
def digitRunVal : List Char → Nat → Nat
  | [], acc => acc
  | c :: rest, acc =>
    if c.isDigit then digitRunVal rest (acc * 10 + (c.toNat - 48)) else acc

/-- Leading digit run of a character list, `none` when it is empty. -/
def leadingDigits : List Char → Option Nat
  | [] => none
  | c :: rest => if c.isDigit then some (digitRunVal (c :: rest) 0) else none

/-- Models `parseInt(key, 10)` on path segments: an optional sign followed by
a digit run; anything else is `NaN` (`none`). (Whitespace skipping and hex
prefixes do not arise for path segments.) -/
def parseIntJS (s : String) : Option Int :=
  match s.toList with
  | '-' :: rest => (leadingDigits rest).map (fun n => -(n : Int))
  | '+' :: rest => (leadingDigits rest).map (fun n => (n : Int))
  | cs => (leadingDigits cs).map (fun n => (n : Int))

/-- `Node.getChildNode(subpath)` for an array node: `assertAlive`, then
`ArrayType.getChildNode`: `parseInt` the key and return the element when
`index < storedValue.length` — so a `NaN` or too-large index throws
`Not a child`, while a negative index passes the bound check and yields the
JS `undefined` element (`none`). -/
def getChildNodeAt (t : NTree) (p : RPath) (key : String) :
    Except String (Option RPath) :=
  match subtreeAt t p with
  | none => .error "model: unresolved path"
  | some s =>
    if s.recOf.alive then
      match parseIntJS key with
      | none => .error (notChildMsg key)
      | some i =>
        if i < 0 then .ok none
        else if i < (s.numKids : Int) then .ok (some (i.toNat :: p))
        else .error (notChildMsg key)
    else .error deadMsg

/-- The loop body of `Node.resolvePath(pathParts, failIfResolveFails)`.
`cur = none` models the JS variable `current` holding `undefined`;
`.ok none` is the `return undefined` of the non-throwing form (and of the
final `return current!` when `current` ended up `undefined`). An empty
segment jumps to the root, `".."` moves to the parent (failing or returning
`undefined` when there is none), `"."` stays, and any other segment is a
child lookup whose `continue` skips the null check. -/
def resolvePathGo (t : NTree) (failIfResolveFails : Bool) :
    Option RPath → List String → Except String (Option RPath)
  | cur, [] => .ok cur
  | cur, part :: rest =>
    if part = "" then
      match cur with
      | none => .error typeErrorMsg
      | some _ => resolvePathGo t failIfResolveFails (some []) rest
    else if part = ".." then
      match cur with
      | none => .error typeErrorMsg
      | some p =>
        match p with
        | [] =>
          if failIfResolveFails then .error (couldNotResolveMsg part)
          else .ok none
        | _ :: parent => resolvePathGo t failIfResolveFails (some parent) rest
    else if part = "." then resolvePathGo t failIfResolveFails cur rest
    else
      match cur with
      | some p =>
        match getChildNodeAt t p part with
        | .error e => .error e
        | .ok c => resolvePathGo t failIfResolveFails c rest
      | none =>
        if failIfResolveFails then .error (couldNotResolveMsg part)
        else .ok none

/-- `Node.resolvePath(parts, failIfResolveFails)` starting at the node
addressed by `p`. -/
def resolvePathAt (t : NTree) (p : RPath) (parts : List String)
    (failIfResolveFails : Bool) : Except String (Option RPath) :=
  resolvePathGo t failIfResolveFails (some p) parts

/-! ## `hasParent` / `getParent` (mst-operations) -/

/-- The `while (parent) { if (--depth === 0) return true; ... }` loop of
`hasParent`: walk the parent chain (the reversed path), decrementing. -/
def hasParentGo : RPath → Int → Bool
  | [], _ => false
  | _ :: rest, depth => if depth - 1 = 0 then true else hasParentGo rest (depth - 1)

/-- `hasParent(target, depth)`: rejects `depth < 0` with a message claiming
`>= 1`, then walks the parent chain. -/
def hasParentAt (t : NTree) (p : RPath) (depth : Int) : Except String Bool :=
  match subtreeAt t p with
  | none => .error "model: unresolved path"
  | some _ =>
    if depth < 0 then .error (invalidDepthMsg depth)
    else .ok (hasParentGo p depth)

/-- The walk loop of `getParent`, returning the ancestor's address. -/
def getParentGo (depth0 : Int) : RPath → Int → Except String RPath
  | [], _ => .error (parentNotFoundMsg depth0)
  | _ :: rest, d => if d - 1 = 0 then .ok rest else getParentGo depth0 rest (d - 1)

/-- `getParent(target, depth)`: rejects `depth < 0`, then walks up `depth`
parents, failing with the not-found error when the chain is exhausted. -/
def getParentAt (t : NTree) (p : RPath) (depth : Int) : Except String RPath :=
  match subtreeAt t p with
  | none => .error "model: unresolved path"
  | some _ =>
    if depth < 0 then .error (invalidDepthMsg depth)
    else getParentGo depth p depth

/-! ## Array reconciliation (`reconcileArrayChildren`, array.ts)

The algorithm is embedded as a function over the data it inspects: the old
child nodes (reconciliation candidates, viewed through their `nodeId`,
`identifierAttribute` and `identifier`) and the new values. JS objects keyed
by identifier attribute / identifier value / nodeId are modelled as
association lists with JS object semantics: overwrite keeps the first
position, and `for-in` over the integer-keyed `nodesToBeKilled` iterates in
ascending numeric order. -/

/-- A reconciliation candidate: the data of an old child node that
`reconcileArrayChildren` reads (`oldNode.nodeId`, `oldNode.identifierAttribute`,
`oldNode.identifier`, i.e. `storedValue[identifierAttribute]`). -/
structure CNode where
  nodeId : Nat
  identifierAttribute : Option String := none
  /-- the value of the identifier field; `none` models the field being absent
  (JS `undefined`) -/
  idValue : Option JsPrim := none
  deriving Repr, DecidableEq

/-- The JS object key under which a candidate is registered:
`oldNodesByIdentifier[attr][oldNode.identifier!]`. -/
def keyOfC (c : CNode) : String := (c.idValue.getD JsPrim.undefVal).toKey

/-- A new value handed to `reconcileArrayChildren`: a live tree node
(`isStateTreeNode`), a mutable non-node object (`isMutable` — a composite
snapshot, viewed through its primitive-valued fields), or a scalar. A live
node carries the fields the algorithm reads: its `nodeId`, current `parent`,
aliveness, and whether it holds an execution environment. -/
inductive RValue where
  | live (nodeId : Nat) (parent : Option Nat) (alive : Bool) (hasEnv : Bool)
  | composite (fields : List (String × JsPrim))
  | scalar (v : JsPrim)
  deriving Repr, DecidableEq

/-- One entry of the result array `res`:
`reused` — a live node of the same parent taken from the candidate set;
`reconciled` — a candidate matched by identifier, reconciled in place
(`childType.reconcile` updates the matched node's contents and returns the
same node — modelled from the spec, the type descriptors being external);
`fresh` — `childType.instantiate` created a brand-new node (its `nodeId`
drawn from the process-wide counter, cf. `createNode`);
`transplanted` — a live root from elsewhere absorbed via `createNode`'s
live-node branch. -/
inductive REntry where
  | reused (nodeId : Nat) (subpath : String)
  | reconciled (nodeId : Nat) (subpath : String)
  | fresh (nodeId : Nat) (subpath : String)
  | transplanted (nodeId : Nat) (subpath : String)
  deriving Repr, DecidableEq

/-- One bucket of `oldNodesByIdentifier[attr]`: identifier key → candidate. -/
abbrev IdBucket := List (String × CNode)

/-- `oldNodesByIdentifier`: attribute name → bucket, in insertion order
(JS for-in order for non-numeric property names). -/
abbrev IdIndex := List (String × IdBucket)

/-- JS object property write into a bucket: overwrite keeps the position of
the first insertion, a new key is appended. -/
def bucketSet : IdBucket → String → CNode → IdBucket
  | [], k, c => [(k, c)]
  | (k0, c0) :: rest, k, c =>
    if k0 = k then (k0, c) :: rest else (k0, c0) :: bucketSet rest k c

/-- JS object property read from a bucket. -/
def bucketGet : IdBucket → String → Option CNode
  | [], _ => none
  | (k0, c0) :: rest, k => if k0 = k then some c0 else bucketGet rest k

/-- `(oldNodesByIdentifier[attr] || (oldNodesByIdentifier[attr] = {}))[id] = node`. -/
def indexAdd : IdIndex → String → String → CNode → IdIndex
  | [], attr, k, c => [(attr, [(k, c)])]
  | (a0, b0) :: rest, attr, k, c =>
    if a0 = attr then (a0, bucketSet b0 k c) :: rest
    else (a0, b0) :: indexAdd rest attr k c

/-- First phase of `reconcileArrayChildren`: index the candidates that declare
an identifier attribute. -/
def buildIndex (olds : List CNode) : IdIndex :=
  olds.foldl
    (fun idx c =>
      match c.identifierAttribute with
      | some a => indexAdd idx a (keyOfC c) c
      | none => idx)
    []

/-- `snapshot[attr]` — field read on a composite new value; an absent field is
JS `undefined`. -/
def fieldGet : List (String × JsPrim) → String → Option JsPrim
  | [], _ => none
  | (a0, v0) :: rest, a => if a0 = a then some v0 else fieldGet rest a

/-- `findReconcilationCandidates(snapshot)`: for each identifier attribute
present among the old nodes (in insertion order), read the same-named field of
the snapshot; when it is a string or number and the bucket holds a candidate
under that key, return that candidate. -/
def findCand (fields : List (String × JsPrim)) : IdIndex → Option CNode
  | [] => none
  | (attr, bucket) :: rest =>
    match fieldGet fields attr with
    | some v =>
      if v.isStrOrNum then
        match bucketGet bucket v.toKey with
        | some c => some c
        | none => findCand fields rest
      else findCand fields rest
    | none => findCand fields rest

/-- `nodesToBeKilled`: nodeId → still-to-be-killed. A claimed candidate's
entry is set to `false` (`nodesToBeKilled[nodeId] = undefined`). -/
abbrev Kills := List (Nat × Bool)

def killsSet : Kills → Nat → Bool → Kills
  | [], id, b => [(id, b)]
  | (i0, b0) :: rest, id, b =>
    if i0 = id then (i0, b) :: rest else (i0, b0) :: killsSet rest id b

def killsGet : Kills → Nat → Option Bool
  | [], _ => none
  | (i0, b0) :: rest, id => if i0 = id then some b0 else killsGet rest id

/-- Mark every old node as "to be killed unless claimed". -/
def initKills (olds : List CNode) : Kills :=
  olds.foldl (fun ks c => killsSet ks c.nodeId true) []

/-- Insertion into an ascending list, for the JS for-in order over the
integer-keyed `nodesToBeKilled` object (ascending numeric order). -/
def insertAsc (x : Nat) : List Nat → List Nat
  | [] => [x]
  | y :: ys => if x ≤ y then x :: y :: ys else y :: insertAsc x ys

def sortAsc (l : List Nat) : List Nat := l.foldr insertAsc []

/-- The body of the `newValues.forEach` loop of `reconcileArrayChildren`, for
one new value: threading `nodesToBeKilled` (`ks`) and the process-wide
node-id counter (`nid`). `parentId` is the reconciling parent, `parentRootId`
its root (read by `setParent`'s containment check when a foreign live root is
absorbed; the identifier-cache merge performed on attach is modelled at the
store level — see `setParent` —, a lone reused node having no subtree cache
to collide here). -/
def recStep (parentId parentRootId : Nat) (idx : IdIndex) (ks : Kills)
    (nid : Nat) (v : RValue) (sp : String) :
    Except String (REntry × Kills × Nat) :=
  match v with
  | .live cid cpar calive cenv =>
    -- `childNode.assertAlive()`
    if calive = false then .error deadMsg
    else if cpar = some parentId then
      -- came from this array already: must be in the (unclaimed) candidate set
      if killsGet ks cid = some true then
        .ok (.reused cid sp, killsSet ks cid false, nid)
      else .error alreadyPartMsg
    else if cpar.isSome then
      -- lives in another tree: `createNode` rejects a non-root live node
      .error alreadyPartMsg
    else if parentRootId = cid then .error containMsg
    else if cenv then .error envMsg
    else .ok (.transplanted cid sp, ks, nid)
  | .composite fields =>
    match findCand fields idx with
    | some c => .ok (.reconciled c.nodeId sp, killsSet ks c.nodeId false, nid)
    | none => .ok (.fresh nid sp, ks, nid + 1)
  | .scalar _ => .ok (.fresh nid sp, ks, nid + 1)

/-- The `newValues.forEach` loop of `reconcileArrayChildren`. -/
def recGo (parentId parentRootId : Nat) (idx : IdIndex) :
    Kills → Nat → List (RValue × String) →
    Except String (List REntry × Kills × Nat)
  | ks, nid, [] => .ok ([], ks, nid)
  | ks, nid, (v, sp) :: rest =>
    match recStep parentId parentRootId idx ks nid v sp with
    | .error e => .error e
    | .ok (entry, ks1, nid1) =>
      match recGo parentId parentRootId idx ks1 nid1 rest with
      | .error e => .error e
      | .ok (es, ks2, n2) => .ok (entry :: es, ks2, n2)

/-- The outcome of `reconcileArrayChildren`: the result array, the node ids on
which `die()` was invoked (in for-in order, ascending), and the value of the
process-wide node-id counter afterwards. -/
structure RecResult where
  res : List REntry
  killed : List Nat
  nextId : Nat
  deriving Repr, DecidableEq

/-- `reconcileArrayChildren(parent, childType, oldNodes, newValues, newPaths)`.
`startId` is the current value of the process-wide node-id counter
(`nextNodeId`); new paths are given already stringified (`"" + newPaths[index]`). -/
def reconcileArrayChildren (parentId parentRootId : Nat) (olds : List CNode)
    (news : List RValue) (paths : List String) (startId : Nat) :
    Except String RecResult :=
  match recGo parentId parentRootId (buildIndex olds) (initKills olds) startId
      (news.zip paths) with
  | .error e => .error e
  | .ok (es, ks, nid) =>
    .ok ⟨es, sortAsc ((ks.filter (fun e => e.2)).map (fun e => e.1)), nid⟩

/-- The candidate claimed by a result entry (`nodesToBeKilled[...] = undefined`):
a live node reused from the same parent, or a candidate reconciled by
identifier. -/
def entryClaim : REntry → Option Nat
  | .reused n _ => some n
  | .reconciled n _ => some n
  | _ => none

/-- The node ids claimed by a result array. -/
def claimedIds (es : List REntry) : List Nat := es.filterMap entryClaim

/-- A candidate matching a composite new value: the new value carries a
string-or-number field named like the candidate's identifier attribute whose
object-key coercion equals the candidate's registered identifier key. -/
def candMatches (c : CNode) (fields : List (String × JsPrim)) : Bool :=
  match c.identifierAttribute with
  | none => false
  | some a =>
    match fieldGet fields a with
    | none => false
    | some v => v.isStrOrNum && (v.toKey = keyOfC c)

/-! ## `Node.setParent` and `createNode` (core/node.ts)

These operations relate nodes across trees, so they are embedded over a flat
store of node records with explicit parent links (the `_parent` field of the
source); the tree shape of complex stored values is carried by each record's
ordered `children` list. -/

/-- The per-node state read and written by `setParent` / `createNode`. -/
structure PNode where
  nodeId : Nat
  /-- `Node._parent` -/
  parent : Option Nat := none
  /-- `Node.subpath` -/
  subpath : String := ""
  /-- `Node._isAlive` -/
  alive : Bool := true
  /-- whether `Node._environment` is set (`!!this._environment`) -/
  hasEnv : Bool := false
  /-- child node ids, in order (`type.getChildren`) -/
  children : List Nat := []
  identifierAttribute : Option String := none
  idValue : Option JsPrim := none
  deriving Repr, DecidableEq

abbrev PStore := List PNode

def pfind (st : PStore) (id : Nat) : Option PNode :=
  st.find? (fun n => n.nodeId = id)

def pupdate (st : PStore) (id : Nat) (f : PNode → PNode) : PStore :=
  st.map (fun n => if n.nodeId = id then f n else n)

/-- The `root` getter: walk `_parent` until a node without one; fuelled by the
store size (parent chains of well-formed stores terminate within it). -/
def prootAux : Nat → PStore → Nat → Option Nat
  | 0, _, _ => none
  | fuel + 1, st, id =>
    match pfind st id with
    | none => none
    | some n =>
      match n.parent with
      | none => some id
      | some p => prootAux fuel st p

/-- Node ids of the subtree rooted at `id` (fuelled). -/
def psubtreeAux : Nat → PStore → Nat → List Nat
  | 0, _, _ => []
  | fuel + 1, st, id =>
    match pfind st id with
    | none => [id]
    | some n => id :: n.children.flatMap (psubtreeAux fuel st)

/-- Identifier-cache entries `(identifierAttribute, identifier)` contributed
by the live, identifier-bearing nodes among `ids`. The cache invariant makes
the cache derivable from the live nodes, so this is its contents. -/
def pIdEntries (st : PStore) (ids : List Nat) : List (String × String) :=
  ids.filterMap (fun i =>
    match pfind st i with
    | none => none
    | some n =>
      if n.alive then
        n.identifierAttribute.map (fun a => (a, (n.idValue.getD JsPrim.undefVal).toKey))
      else none)

/-- Modelled from the spec: `IdentifierCache.mergeCache` (identifier-cache.ts
is not among the sources) — on attach, the subtree's entries are folded into
the receiving root's cache and a colliding identifier already present from a
different live node is a hard failure. -/
def mergeCacheOk (st : PStore) (childId newRootId : Nat) : Bool :=
  let sub := psubtreeAux (st.length + 1) st childId
  let target := (psubtreeAux (st.length + 1) st newRootId).filter
    (fun i => ¬ sub.contains i)
  (pIdEntries st sub).all (fun e => ¬ (pIdEntries st target).contains e)

def mergeMsg : String := "Cannot register an identifier twice"

/-- The outcome of `setParent`: an early-return no-op, a parent-to-null
transition (which invokes `die()` — death is verified on the tree model,
`dieTree`; here the invocation is recorded), or an attach. -/
inductive SPOutcome where
  | unchanged
  | dieInvoked
  | attached (st : PStore)

/-- `Node.setParent(newParent, subpath)` (subpath defaults to `null`):
no-op when parent and subpath are unchanged; fails when the node already has
a different non-null parent; fails when the assignment would make a tree
contain itself; fails when a root bound to an environment is grafted
elsewhere; a non-null-to-null transition dies; otherwise update the subpath
and, for a new parent, merge the identifier cache, set `_parent` and fire
`afterAttach` (a user hook, not modelled). -/
def setParent (st : PStore) (id : Nat) (newParent : Option Nat)
    (subpath : Option String := none) : Except String SPOutcome :=
  match pfind st id with
  | none => .error "model: missing node"
  | some n =>
    if n.parent = newParent ∧ some n.subpath = subpath then .ok .unchanged
    else if n.parent.isSome ∧ newParent.isSome ∧ newParent ≠ n.parent then
      .error twiceMsg
    else if n.parent = none ∧ newParent.isSome ∧
        prootAux (st.length + 1) st (newParent.getD 0) = some id then
      .error containMsg
    else if n.parent = none ∧ n.hasEnv then .error envMsg
    else if n.parent.isSome ∧ newParent = none then .ok .dieInvoked
    else
      -- `this.subpath = subpath || ""`
      let sp := (subpath.getD "")
      let st1 := pupdate st id (fun m => { m with subpath := sp })
      match newParent with
      | some q =>
        if newParent ≠ n.parent then
          match prootAux (st.length + 1) st1 q with
          | none => .error "model: root not found"
          | some rt =>
            if mergeCacheOk st1 id rt then
              .ok (.attached (pupdate st1 id (fun m => { m with parent := some q })))
            else .error mergeMsg
        else .ok (.attached st1)
      | none => .ok (.attached st1)

/-- The live-node branch of `createNode`: a value that is already a live node
of this type system is re-parented in place — rejected when it is not
currently a root. -/
def createNodeLive (st : PStore) (parent : Option Nat) (subpath : String)
    (valueId : Nat) : Except String SPOutcome :=
  match pfind st valueId with
  | none => .error "model: missing node"
  | some tn =>
    if tn.parent.isSome then .error alreadyPartMsg
    else setParent st valueId parent (some subpath)

/-! ## `ArrayType` over a scalar element type (array.ts)

The splice pipeline — `willChange` (mutation gate and reconciliation),
the mobx array mutation, and `didChange` (patch emission) — embedded for an
array node of scalar elements (the claims' array-of-string scenario). For
scalar new values reconciliation always instantiates fresh child nodes, and
`die()` on the removed scalar-valued children does not touch modelled state
(cf. `dieTree`). -/

/-- A JSON patch (json-patch.ts), with paths already localized at the array
node by `emitPatch` (for the node's own subscribers: `"/" + patch.path`). -/
structure Patch where
  op : String
  path : String
  value : Option JsPrim := none
  deriving Repr, DecidableEq

/-- The state of a root array node of scalars. -/
structure ANode where
  /-- `Node._isAlive` -/
  alive : Bool := true
  /-- `Node.isProtectionEnabled` (this node is a root) -/
  protectionEnabled : Bool := true
  /-- `Node._isRunningAction` -/
  runningAction : Bool := false
  /-- the scalar snapshots of the child nodes, in order -/
  elems : List JsPrim := []
  deriving Repr, DecidableEq

/-- `Node.assertWritable` for the root array node: `assertAlive`, then fail
when no action is running while the tree is protected. -/
def assertWritableA (a : ANode) : Except String Unit :=
  if a.alive = false then .error deadMsg
  else if a.runningAction = false ∧ a.protectionEnabled = true then
    .error protectedMsg
  else .ok ()

/-- A `remove` patch at an index (path localized at the emitting node). -/
def removePatch (i : Nat) : Patch := { op := "remove", path := "/" ++ toString i }

/-- An `add` patch at an index carrying a value. -/
def addPatch (i : Nat) (v : JsPrim) : Patch :=
  { op := "add", path := "/" ++ toString i, value := some v }

/-- The `remove` patches of `ArrayType.didChange` for a splice: one per
removed element, emitted highest-index-first
(`for (let i = index + removedCount - 1; i >= index; i--)`). -/
def removalPatches (index : Nat) : Nat → List Patch
  | 0 => []
  | n + 1 => removePatch (index + n) :: removalPatches index n

/-- The `add` patches of `ArrayType.didChange` for a splice: one per added
element, emitted lowest-index-first, each carrying the post-splice snapshot of
the child at that index (`node.getChildNode("" + (change.index + i)).snapshot`). -/
def addPatches (index : Nat) (newElems : List JsPrim) : Nat → Nat → List Patch
  | _, 0 => []
  | i, n + 1 =>
    addPatch (index + i) (newElems.getD (index + i) JsPrim.undefVal)
      :: addPatches index newElems (i + 1) n

/-- An array splice through the node: `willChange` gates the mutation and
reconciles the affected children (fresh nodes for scalars; removed scalar
children get `die()` invoked, a no-op on their modelled state), mobx applies
the splice (`change.index`/`change.removedCount` are the clamped values mobx
reports), and `didChange` emits the patches. -/
def spliceA (a : ANode) (index removedCount : Nat) (added : List JsPrim) :
    Except String (ANode × List Patch) :=
  match assertWritableA a with
  | .error e => .error e
  | .ok _ =>
    let i := min index a.elems.length
    let k := min removedCount (a.elems.length - i)
    let newElems := a.elems.take i ++ added ++ a.elems.drop (i + k)
    .ok ({ a with elems := newElems },
      removalPatches i k ++ addPatches i newElems 0 added.length)

/-- `ArrayType.getSnapshot`: the children's snapshots in order. -/
def getSnapshotA (a : ANode) : List JsPrim := a.elems

/-- Modelled from the spec: `typecheck` (type-checker.ts is not among the
sources) escalates a failed validation into a fatal error; for an array type
the validation is `ArrayType.isValidSnapshot`: the value is an array and each
element validates against the sub type (`validElem`, the external scalar
descriptor's check). -/
def typecheckArray (validElem : JsPrim → Bool) (snapshot : List JsPrim) :
    Except String Unit :=
  if snapshot.all validElem then .ok ()
  else .error "Error while converting snapshot to array type"

/-- `ArrayType.applySnapshot`: `typecheck` first, then — as a pseudo action,
which sets `_isRunningAction` during the body and so unlocks a protected
tree — `target.replace(snapshot)`, a splice over the whole array, emitting
its patches; the new snapshot is then emitted to snapshot subscribers (the
reactive substrate recomputes it at transaction end — modelled from the
spec). Returns the updated node, the emitted patches, and the emitted
snapshots. -/
def applySnapshotA (validElem : JsPrim → Bool) (a : ANode)
    (snapshot : List JsPrim) : Except String (ANode × List Patch × List (List JsPrim)) :=
  match typecheckArray validElem snapshot with
  | .error e => .error e
  | .ok _ =>
    -- pseudoAction: remember `_isRunningAction`, set it for the body, restore
    match spliceA { a with runningAction := true } 0 a.elems.length snapshot with
    | .error e => .error e
    | .ok (a2, patches) =>
      .ok ({ a2 with runningAction := a.runningAction }, patches, [getSnapshotA a2])

/-- The post-state of `applySnapshot` as seen by a caller that catches the
exception: the source throws before any mutation, so an error leaves the node
unchanged. -/
def applySnapshotRun (validElem : JsPrim → Bool) (a : ANode)
    (snapshot : List JsPrim) : ANode :=
  match applySnapshotA validElem a snapshot with
  | .ok (a2, _, _) => a2
  | .error _ => a

/-! ## Ancestor chains -/

/-- The suffixes of a reversed path: the addresses of a node and of each of
its ancestors up to the root. -/
def suffixPaths : RPath → List RPath
  | [] => [[]]
  | k :: rest => (k :: rest) :: suffixPaths rest

/-- The node records on the path from a node up to the root (inclusive). -/
def chainRecs (t : NTree) (p : RPath) : List NRec :=
  (suffixPaths p).filterMap (fun q => (subtreeAt t q).map NTree.recOf)

/-! ## Concrete instances used by witnesses and counterexamples -/

/-- A node whose stored value is a primitive (`isStateTreeNode` is false). -/
def primNodeEx : NTree :=
  NTree.node { valueIsTreeNode := false, scalarValue := JsPrim.str "a" } NForest.nil

/-- A childless complex node (e.g. an empty array node). -/
def compNodeEx : NTree := NTree.node {} NForest.nil

/-- The state of `compNodeEx` after `die()`. -/
def compDeadEx : NTree :=
  NTree.node { alive := false, frozenSnapshot := some (some (Snap.arr [])) }
    NForest.nil

/-- Two scalar children holding `"a"` and `"b"`. -/
def twoKidsForest : NForest :=
  NForest.cons (NTree.node { valueIsTreeNode := false, scalarValue := JsPrim.str "a" } NForest.nil)
    (NForest.cons (NTree.node { valueIsTreeNode := false, scalarValue := JsPrim.str "b" } NForest.nil)
      NForest.nil)

/-- An array node of two scalar children; the root runs no action and is
protected. -/
def twoKidTree : NTree := NTree.node {} twoKidsForest

/-- A node flagged as mid-detach. -/
def detachingNodeEx : NTree := NTree.node { detaching := true } NForest.nil

/-- A protected two-level tree whose leaf runs an action. -/
def actionTree : NTree :=
  NTree.node {}
    (NForest.cons (NTree.node { runningAction := true, valueIsTreeNode := false } NForest.nil)
      NForest.nil)

/-- A scalar element validator: strings only (the `t.string` sub type),
used as a concrete `validElem` by witnesses. -/
def isStrElem : JsPrim → Bool
  | .str _ => true
  | _ => false

/-- Candidate with identifier `id = 1`. -/
def candA : CNode :=
  { nodeId := 1, identifierAttribute := some "id", idValue := some (JsPrim.num 1) }

/-- Candidate with identifier `id = 2`. -/
def candB : CNode :=
  { nodeId := 2, identifierAttribute := some "id", idValue := some (JsPrim.num 2) }

def reconcileOlds : List CNode := [candA, candB]

/-- New values: a composite snapshot carrying `id = 2` and a scalar. -/
def reconcileNews : List RValue :=
  [RValue.composite [("id", JsPrim.num 2)], RValue.scalar (JsPrim.str "s")]

def reconcilePaths : List String := ["0", "1"]

/-- The expected outcome of reconciling `reconcileNews` against
`reconcileOlds`: the identified candidate (node 2) is reused at subpath "0",
the scalar gets a fresh node, and node 1 is killed. -/
def reconcileRunEx : RecResult :=
  { res := [REntry.reconciled 2 "0", REntry.fresh 100 "1"],
    killed := [1], nextId := 101 }

/-- A child node (id 1) of parent 2, plus two free nodes. -/
def pnA : PNode := { nodeId := 1, parent := some 2 }

def pnB : PNode := { nodeId := 2, children := [1] }

def pnC : PNode := { nodeId := 3 }

def pstoreEx : PStore := [pnA, pnB, pnC]

/-- The unprotected array-of-string node `["a","b"]` of the C6 scenario. -/
def abNode : ANode :=
  { elems := [JsPrim.str "a", JsPrim.str "b"], protectionEnabled := false }

/-- The expected node after splicing `"c"` into `abNode` at index 1. -/
def acbNode : ANode :=
  { elems := [JsPrim.str "a", JsPrim.str "c", JsPrim.str "b"],
    protectionEnabled := false }

/-! # Theorems

Helper lemmas first, then one theorem per claim (with witnesses and
counterexamples). -/

theorem rootOfPath_eq_nil (p : RPath) : rootOfPath p = [] := by
  induction p with
  | nil => rfl
  | cons _ _ ih => simpa [rootOfPath] using ih

/-! ### Death and snapshots -/

mutual
theorem snapshotForest_finalizeWalkForest :
    ∀ f : NForest, snapshotForest (finalizeWalkForest f) = snapshotForest f
  | .nil => rfl
  | .cons h tl => by
    have ih := snapshotForest_finalizeWalkForest tl
    by_cases hc : h.recOf.valueIsTreeNode = true
    · have iht := snapshotOf_finalizeWalk h
      simp [finalizeWalkForest, snapshotForest, hc, iht, ih]
    · simp [finalizeWalkForest, snapshotForest, hc, ih]

theorem snapshotOf_finalizeWalk :
    ∀ t : NTree, snapshotOf (finalizeWalk t) = snapshotOf t
  | .node r kids => by
    have hf := snapshotForest_finalizeWalkForest kids
    show snapshotOf (finalizeSelf (NTree.node r (finalizeWalkForest kids))) = _
    cases hfs : r.frozenSnapshot with
    | some s => simp [finalizeSelf, snapshotOf, hfs]
    | none =>
      cases ha : r.alive with
      | false => simp [finalizeSelf, snapshotOf, hfs, ha]
      | true =>
        cases hv : r.valueIsTreeNode with
        | false => simp [finalizeSelf, snapshotOf, hfs, ha, hv]
        | true => simp [finalizeSelf, snapshotOf, hfs, ha, hv, hf]
end

/-- The snapshot captured by `finalizeDeath` into the read-only property is
the node's last live snapshot. -/
theorem snapshotOf_node_finalizeForest (r : NRec) (kids : NForest) :
    snapshotOf (NTree.node r (finalizeWalkForest kids)) =
      snapshotOf (NTree.node r kids) := by
  have hf := snapshotForest_finalizeWalkForest kids
  cases hfs : r.frozenSnapshot with
  | some s => simp [snapshotOf, hfs]
  | none =>
    cases ha : r.alive with
    | false => simp [snapshotOf, hfs, ha]
    | true =>
      cases hv : r.valueIsTreeNode with
      | false => simp [snapshotOf, hfs, ha, hv]
      | true => simp [snapshotOf, hfs, ha, hv, hf]

theorem finalizeWalk_node (r : NRec) (kids : NForest) :
    finalizeWalk (NTree.node r kids) =
      NTree.node
        { r with
          frozenSnapshot :=
            some (snapshotOf (NTree.node r (finalizeWalkForest kids))),
          alive := false }
        (finalizeWalkForest kids) := rfl

theorem dieTree_eq_ok (t : NTree) (h1 : t.recOf.detaching = false)
    (h2 : t.recOf.valueIsTreeNode = true) (h3 : walkOk t = true) :
    dieTree t = .ok (finalizeWalk t) := by
  simp [dieTree, h1, h2, h3]

theorem walkOk_alive (r : NRec) (kids : NForest)
    (h : walkOk (NTree.node r kids) = true) : r.alive = true := by
  have := h
  rw [walkOk] at this
  exact (Bool.and_eq_true_iff.mp this).1

/-! ### Claim C4 -/

/-- C4 (amended): for every node whose stored value is a tree node (a
complex, `$treenode`-carrying value), after `die()` completes the node is no
longer alive, its snapshot is frozen to (and still reads as) the last
snapshot computed while alive, and subsequent mutation attempts fail with the
dead-node error. (For nodes whose stored value is a primitive or frozen
value, `die()` is a no-op — see the counterexample for the original claim.) -/
theorem c4_die_marks_dead_and_freezes_snapshot
    (r : NRec) (kids : NForest)
    (hv : r.valueIsTreeNode = true) (hd : r.detaching = false)
    (hfz : r.frozenSnapshot = none)
    (hw : walkOk (NTree.node r kids) = true) :
    ∃ t2, dieTree (NTree.node r kids) = .ok t2 ∧
      t2.recOf.alive = false ∧
      snapshotOf (NTree.node r kids) = some (Snap.arr (snapshotForest kids)) ∧
      snapshotOf t2 = snapshotOf (NTree.node r kids) ∧
      t2.recOf.frozenSnapshot = some (snapshotOf (NTree.node r kids)) ∧
      assertWritableAt t2 [] = .error deadMsg := by
  have ha : r.alive = true := walkOk_alive r kids hw
  refine ⟨finalizeWalk (NTree.node r kids), dieTree_eq_ok _ hd hv hw, ?_, ?_, ?_, ?_, ?_⟩
  · simp [finalizeWalk_node, NTree.recOf]
  · simp [snapshotOf, hfz, ha, hv]
  · exact snapshotOf_finalizeWalk (NTree.node r kids)
  · simp [finalizeWalk_node, NTree.recOf, snapshotOf_node_finalizeForest]
  · simp [assertWritableAt, subtreeAt, finalizeWalk_node, NTree.recOf]

/-- Witness for C4 at an array node with two scalar children. -/
theorem c4_witness :
    ({} : NRec).valueIsTreeNode = true ∧ ({} : NRec).detaching = false ∧
    ({} : NRec).frozenSnapshot = none ∧ walkOk (NTree.node {} twoKidsForest) = true ∧
    ∃ t2, dieTree (NTree.node {} twoKidsForest) = .ok t2 ∧
      t2.recOf.alive = false ∧
      snapshotOf (NTree.node {} twoKidsForest) =
        some (Snap.arr (snapshotForest twoKidsForest)) ∧
      snapshotOf t2 = snapshotOf (NTree.node {} twoKidsForest) ∧
      t2.recOf.frozenSnapshot = some (snapshotOf (NTree.node {} twoKidsForest)) ∧
      assertWritableAt t2 [] = .error deadMsg :=
  ⟨rfl, rfl, rfl, rfl,
    c4_die_marks_dead_and_freezes_snapshot {} twoKidsForest rfl rfl rfl rfl⟩

/-- Counterexample to C4 as stated: a node whose stored value is a primitive
is still alive after `die()` — `die` only walks when `isStateTreeNode(this.storedValue)`. -/
theorem c4_counterexample :
    dieTree primNodeEx = .ok primNodeEx ∧ primNodeEx.recOf.alive = true :=
  ⟨rfl, rfl⟩

/-! ### Claim C5 -/

/-- C5 (amended): `die()` is a no-op while the node is mid-detach, and a
no-op (hence idempotent) on nodes whose stored value is not a tree node; but
calling `die()` again on a tree-node-valued node that has already died fails
with the dead-node assertion (`walk` calls `getChildren`, which calls
`assertAlive`), rather than succeeding. -/
theorem c5_die_detach_noop_second_die_throws :
    (∀ t : NTree, t.recOf.detaching = true → dieTree t = .ok t) ∧
    (∀ t : NTree, t.recOf.valueIsTreeNode = false → dieTree t = .ok t) ∧
    (∀ (r : NRec) (kids : NForest) (t2 : NTree),
      r.valueIsTreeNode = true → r.detaching = false →
      walkOk (NTree.node r kids) = true →
      dieTree (NTree.node r kids) = .ok t2 →
      dieTree t2 = .error deadMsg) := by
  refine ⟨?_, ?_, ?_⟩
  · intro t h; simp [dieTree, h]
  · intro t h
    by_cases hd : t.recOf.detaching = true
    · simp [dieTree, hd]
    · simp [dieTree, h, Bool.eq_false_iff.mpr hd]
  · intro r kids t2 hv hd hw hdie
    rw [dieTree_eq_ok (NTree.node r kids) hd hv hw] at hdie
    have ht2 : t2 = finalizeWalk (NTree.node r kids) := (Except.ok.injEq _ _).mp hdie.symm
    subst ht2
    simp [dieTree, finalizeWalk_node, NTree.recOf, hd, hv, walkOk]

/-- Witness for C5: a mid-detach node, a primitive-valued node, and a
composite node that died. -/
theorem c5_witness :
    dieTree detachingNodeEx = .ok detachingNodeEx ∧
    dieTree primNodeEx = .ok primNodeEx ∧
    dieTree compDeadEx = .error deadMsg :=
  ⟨c5_die_detach_noop_second_die_throws.1 detachingNodeEx rfl,
    c5_die_detach_noop_second_die_throws.2.1 primNodeEx rfl,
    c5_die_detach_noop_second_die_throws.2.2 {} NForest.nil compDeadEx rfl rfl rfl rfl⟩

/-- Counterexample to C5 as stated: `die()` is not idempotent — the second
call on a (tree-node-valued) node that has died throws the dead-node
assertion instead of succeeding. -/
theorem c5_counterexample :
    dieTree compNodeEx = .ok compDeadEx ∧ dieTree compDeadEx = .error deadMsg :=
  ⟨rfl, rfl⟩

/-! ### Claim C10 -/

theorem hasParentGo_nonpos :
    ∀ (p : RPath) (d : Int), d ≤ 0 → hasParentGo p d = false
  | [], _, _ => rfl
  | _ :: rest, d, hd => by
    have h1 : d - 1 ≤ 0 := by omega
    have h2 : ¬ (d - 1 = 0) := by omega
    simp [hasParentGo, h2, hasParentGo_nonpos rest (d - 1) h1]

theorem getParentGo_nonpos :
    ∀ (p : RPath) (d0 d : Int), d ≤ 0 →
      getParentGo d0 p d = .error (parentNotFoundMsg d0)
  | [], _, _, _ => rfl
  | _ :: rest, d0, d, hd => by
    have h1 : d - 1 ≤ 0 := by omega
    have h2 : ¬ (d - 1 = 0) := by omega
    simp [getParentGo, h2, getParentGo_nonpos rest d0 (d - 1) h1]

theorem getParentGo_error_msg :
    ∀ (p : RPath) (d0 d : Int) (e : String),
      getParentGo d0 p d = .error e → e = parentNotFoundMsg d0
  | [], d0, d, e, h => by
    simpa [getParentGo] using h.symm
  | _ :: rest, d0, d, e, h => by
    by_cases h2 : d - 1 = 0
    · simp [getParentGo, h2] at h
    · exact getParentGo_error_msg rest d0 (d - 1) e (by simpa [getParentGo, h2] using h)

/-- C10: `hasParent` and `getParent` reject only strictly negative depths
(with a message claiming the depth should be `>= 1`); depth 0 is accepted,
and for every node `hasParent(node, 0)` returns `false` while
`getParent(node, 0)` always fails with the parent-not-found error, never
returning a value. -/
theorem c10_depth_zero_accepted_but_useless :
    (∀ (t : NTree) (p : RPath) (s : NTree) (d : Int), subtreeAt t p = some s →
      d < 0 →
      hasParentAt t p d = .error (invalidDepthMsg d) ∧
      getParentAt t p d = .error (invalidDepthMsg d)) ∧
    (∀ (t : NTree) (p : RPath) (s : NTree), subtreeAt t p = some s →
      hasParentAt t p 0 = .ok false) ∧
    (∀ (t : NTree) (p : RPath) (s : NTree), subtreeAt t p = some s →
      getParentAt t p 0 = .error (parentNotFoundMsg 0)) ∧
    (∀ (t : NTree) (p : RPath) (s : NTree) (d : Int), subtreeAt t p = some s →
      0 ≤ d → ∃ b, hasParentAt t p d = .ok b) ∧
    (∀ (t : NTree) (p : RPath) (s : NTree) (d : Int) (e : String),
      subtreeAt t p = some s → 0 ≤ d →
      getParentAt t p d = .error e → e = parentNotFoundMsg d) := by
  refine ⟨?_, ?_, ?_, ?_, ?_⟩
  · intro t p s d hs hd
    constructor <;> simp [hasParentAt, getParentAt, hs, hd]
  · intro t p s hs
    simp [hasParentAt, hs, hasParentGo_nonpos p 0 (le_refl 0)]
  · intro t p s hs
    simp [getParentAt, hs, getParentGo_nonpos p 0 0 (le_refl 0)]
  · intro t p s d hs hd
    refine ⟨hasParentGo p d, ?_⟩
    simp [hasParentAt, hs, not_lt.mpr hd]
  · intro t p s d e hs hd herr
    rw [getParentAt, hs] at herr
    simp only [not_lt.mpr hd, if_neg (by omega : ¬ d < 0)] at herr
    exact getParentGo_error_msg p d d e herr

/-- Witness for C10: a child node at depth 1 in `twoKidTree`. -/
theorem c10_witness :
    subtreeAt twoKidTree [0] = some
      (NTree.node { valueIsTreeNode := false, scalarValue := JsPrim.str "a" } NForest.nil) ∧
    ((-1 : Int) < 0) ∧
    hasParentAt twoKidTree [0] (-1) = .error (invalidDepthMsg (-1)) ∧
    getParentAt twoKidTree [0] (-1) = .error (invalidDepthMsg (-1)) ∧
    hasParentAt twoKidTree [0] 0 = .ok false ∧
    getParentAt twoKidTree [0] 0 = .error (parentNotFoundMsg 0) := by
  have hs : subtreeAt twoKidTree [0] = some
      (NTree.node { valueIsTreeNode := false, scalarValue := JsPrim.str "a" } NForest.nil) := rfl
  have hneg := (c10_depth_zero_accepted_but_useless.1 twoKidTree [0] _ (-1) hs (by decide))
  exact ⟨hs, by decide, hneg.1, hneg.2,
    c10_depth_zero_accepted_but_useless.2.1 twoKidTree [0] _ hs,
    c10_depth_zero_accepted_but_useless.2.2.1 twoKidTree [0] _ hs⟩

/-! ### Claim C7 -/

theorem subtreeAt_nil (t : NTree) : subtreeAt t [] = some t := rfl

theorem subtreeAt_cons_some (t : NTree) (k : Nat) (rest : RPath) (s : NTree)
    (h : subtreeAt t (k :: rest) = some s) :
    ∃ s2, subtreeAt t rest = some s2 ∧ s2.kidsOf.get? k = some s := by
  cases hrest : subtreeAt t rest with
  | none => rw [subtreeAt, hrest] at h; cases h
  | some s2 => rw [subtreeAt, hrest] at h; exact ⟨s2, rfl, h⟩

theorem chainRecs_nil (t : NTree) : chainRecs t [] = [t.recOf] := rfl

theorem chainRecs_cons_some (t : NTree) (k : Nat) (rest : RPath) (s : NTree)
    (h : subtreeAt t (k :: rest) = some s) :
    chainRecs t (k :: rest) = s.recOf :: chainRecs t rest := by
  simp [chainRecs, suffixPaths, List.filterMap_cons, h]

/-- `isRunningAction()` answers whether some node on the path from the node
to the root has `_isRunningAction` set. -/
theorem isRunningActionAt_spec :
    ∀ (p : RPath) (t s : NTree), subtreeAt t p = some s →
      isRunningActionAt t p =
        some ((chainRecs t p).any (fun r => r.runningAction))
  | [], t, s, h => by
    have hst : s = t := by
      rw [subtreeAt_nil] at h; exact (Option.some.injEq _ _).mp h.symm
    subst hst
    rw [isRunningActionAt, subtreeAt_nil, chainRecs_nil]
    cases hr : s.recOf.runningAction <;> simp [hr]
  | k :: rest, t, s, h => by
    obtain ⟨s2, h2, _⟩ := subtreeAt_cons_some t k rest s h
    have ih := isRunningActionAt_spec rest t s2 h2
    rw [isRunningActionAt, h, chainRecs_cons_some t k rest s h]
    cases hr : s.recOf.runningAction with
    | true => simp [hr]
    | false => simp [hr, ih]

theorem isProtectedAt_eq (t : NTree) (p : RPath) :
    isProtectedAt t p = some t.recOf.protectionEnabled := by
  simp [isProtectedAt, rootOfPath_eq_nil, subtreeAt_nil]

/-- C7: `assertWritable` fails exactly when the node is dead, or the tree is
protected (the root's `isProtectionEnabled`) while no action is running
anywhere on the path from the node up to the root; hence on a protected tree
a mutation outside an action fails at any node, while the same mutation
inside an action, or on an unprotected tree, passes the gate. -/
theorem assertWritableAt_some (t : NTree) (p : RPath) (s : NTree)
    (h : subtreeAt t p = some s) :
    assertWritableAt t p =
      (if s.recOf.alive = true then
        match isRunningActionAt t p, isProtectedAt t p with
        | some false, some true => Except.error protectedMsg
        | _, _ => Except.ok ()
      else Except.error deadMsg) := by
  rw [assertWritableAt, h]

theorem c7_assertWritable_protection_gate (t : NTree) (p : RPath) (s : NTree)
    (h : subtreeAt t p = some s) :
    ((∃ e, assertWritableAt t p = .error e) ↔
      (s.recOf.alive = false ∨
        (t.recOf.protectionEnabled = true ∧
          ∀ r ∈ chainRecs t p, r.runningAction = false))) ∧
    (s.recOf.alive = true → t.recOf.protectionEnabled = true →
      (∀ r ∈ chainRecs t p, r.runningAction = false) →
      assertWritableAt t p = .error protectedMsg) ∧
    (s.recOf.alive = true →
      ((∃ r ∈ chainRecs t p, r.runningAction = true) ∨
        t.recOf.protectionEnabled = false) →
      assertWritableAt t p = .ok ()) := by
  have hany : ((chainRecs t p).any (fun r => r.runningAction) = false) ↔
      (∀ r ∈ chainRecs t p, r.runningAction = false) := by
    rw [← Bool.not_eq_true, List.any_eq_true]
    constructor
    · intro hno r hr
      by_contra hne
      exact hno ⟨r, hr, by simpa using hne⟩
    · rintro hall ⟨r, hr, htrue⟩
      rw [hall r hr] at htrue; cases htrue
  have hw := assertWritableAt_some t p s h
  rw [isRunningActionAt_spec p t s h, isProtectedAt_eq t p] at hw
  refine ⟨?_, ?_, ?_⟩
  · constructor
    · rintro ⟨e, he⟩
      rw [hw] at he
      by_cases halive : s.recOf.alive = true
      · rw [if_pos halive] at he
        cases hb : (chainRecs t p).any (fun r => r.runningAction) with
        | true =>
          rw [hb] at he
          cases hpe : t.recOf.protectionEnabled <;> rw [hpe] at he <;> cases he
        | false =>
          rw [hb] at he
          cases hpe : t.recOf.protectionEnabled with
          | false => rw [hpe] at he; cases he
          | true => exact Or.inr ⟨rfl, hany.mp hb⟩
      · exact Or.inl (by simpa using halive)
    · intro hc
      rw [hw]
      rcases hc with halive | ⟨hpe, hall⟩
      · rw [if_neg (by simp [halive])]
        exact ⟨deadMsg, rfl⟩
      · by_cases halive : s.recOf.alive = true
        · rw [if_pos halive, hany.mpr hall, hpe]
          exact ⟨protectedMsg, rfl⟩
        · rw [if_neg halive]; exact ⟨deadMsg, rfl⟩
  · intro halive hpe hall
    rw [hw, if_pos halive, hany.mpr hall, hpe]
  · intro halive hc
    rw [hw, if_pos halive]
    rcases hc with ⟨r, hr, htrue⟩ | hpe
    · have hb : (chainRecs t p).any (fun r => r.runningAction) = true :=
        List.any_eq_true.mpr ⟨r, hr, htrue⟩
      rw [hb]
    · rw [hpe]
      cases (chainRecs t p).any (fun r => r.runningAction) <;> rfl

/-! ### Reconciliation lemmas (claims C1–C3) -/

theorem killsGet_set_self : ∀ (ks : Kills) (id : Nat) (b : Bool),
    killsGet (killsSet ks id b) id = some b
  | [], id, b => by simp [killsSet, killsGet]
  | (i0, b0) :: rest, id, b => by
    by_cases h : i0 = id
    · simp [killsSet, killsGet, h]
    · simp [killsSet, killsGet, h, killsGet_set_self rest id b]

theorem killsGet_set_other : ∀ (ks : Kills) (id id2 : Nat) (b : Bool),
    id2 ≠ id → killsGet (killsSet ks id b) id2 = killsGet ks id2
  | [], id, id2, b, h => by
    rw [killsSet, killsGet, killsGet, if_neg (fun he => h (Eq.symm he))]
    rfl
  | (i0, b0) :: rest, id, id2, b, h => by
    by_cases h0 : i0 = id
    · have hne : ¬ i0 = id2 := fun he => h (he ▸ h0)
      rw [killsSet, if_pos h0, killsGet, killsGet, if_neg hne, if_neg hne]
    · by_cases h1 : i0 = id2
      · rw [killsSet, if_neg h0, killsGet, killsGet, if_pos h1, if_pos h1]
      · rw [killsSet, if_neg h0, killsGet, killsGet, if_neg h1, if_neg h1,
          killsGet_set_other rest id id2 b h]

theorem killsSet_keys_mem : ∀ (ks : Kills) (id x : Nat) (b : Bool),
    x ∈ (killsSet ks id b).map (fun e => e.1) ↔
      x ∈ ks.map (fun e => e.1) ∨ x = id
  | [], id, x, b => by simp [killsSet]
  | (i0, b0) :: rest, id, x, b => by
    by_cases h : i0 = id
    · subst h
      simp [killsSet]
      tauto
    · simp [killsSet, h, killsSet_keys_mem rest id x b]
      tauto

theorem killsSet_keys_nodup : ∀ (ks : Kills) (id : Nat) (b : Bool),
    (ks.map (fun e => e.1)).Nodup →
    ((killsSet ks id b).map (fun e => e.1)).Nodup
  | [], id, b, _ => by simp [killsSet]
  | (i0, b0) :: rest, id, b, hnd => by
    rw [List.map_cons] at hnd
    obtain ⟨hni, hnd2⟩ := List.nodup_cons.mp hnd
    by_cases h : i0 = id
    · subst h
      rw [killsSet, if_pos rfl, List.map_cons]
      exact List.nodup_cons.mpr ⟨hni, hnd2⟩
    · rw [killsSet, if_neg h, List.map_cons]
      refine List.nodup_cons.mpr ⟨?_, killsSet_keys_nodup rest id b hnd2⟩
      intro hmem
      rcases (killsSet_keys_mem rest id i0 b).mp hmem with hm | hm
      · exact hni hm
      · exact h hm

theorem mem_killedKeys_iff : ∀ (ks : Kills),
    (ks.map (fun e => e.1)).Nodup → ∀ id,
    (id ∈ (ks.filter (fun e => e.2)).map (fun e => e.1) ↔
      killsGet ks id = some true)
  | [], _, id => by simp [killsGet]
  | (i0, b0) :: rest, hnd, id => by
    rw [List.map_cons] at hnd
    obtain ⟨hni, hnd2⟩ := List.nodup_cons.mp hnd
    have ih := mem_killedKeys_iff rest hnd2 id
    by_cases h : i0 = id
    · subst h
      cases b0 with
      | true =>
        rw [killsGet, if_pos rfl]
        simp [List.filter_cons]
      | false =>
        rw [killsGet, if_pos rfl]
        have hnot : i0 ∉ (rest.filter (fun e => e.2)).map (fun e => e.1) := by
          intro hmem
          obtain ⟨e, he, heq⟩ := List.mem_map.mp hmem
          exact hni (List.mem_map.mpr ⟨e, List.mem_of_mem_filter he, heq⟩)
        simp [List.filter_cons, hnot]
    · have h2 : ¬ id = i0 := fun he => h (Eq.symm he)
      cases b0 with
      | true =>
        rw [killsGet, if_neg h]
        simp [List.filter_cons, h2, ih]
      | false =>
        rw [killsGet, if_neg h]
        simpa [List.filter_cons] using ih

theorem mem_insertAsc : ∀ (l : List Nat) (x y : Nat),
    y ∈ insertAsc x l ↔ y = x ∨ y ∈ l
  | [], x, y => by simp [insertAsc]
  | z :: zs, x, y => by
    by_cases h : x ≤ z
    · simp [insertAsc, h]
    · simp [insertAsc, h, mem_insertAsc zs x y]
      tauto

theorem sortAsc_cons (x : Nat) (l : List Nat) :
    sortAsc (x :: l) = insertAsc x (sortAsc l) := rfl

theorem mem_sortAsc : ∀ (l : List Nat) (y : Nat), y ∈ sortAsc l ↔ y ∈ l
  | [], y => by simp [sortAsc]
  | x :: xs, y => by
    rw [sortAsc_cons, mem_insertAsc, mem_sortAsc xs y]
    simp

theorem killsGet_initKills_aux : ∀ (olds : List CNode) (ks : Kills) (id : Nat),
    killsGet (olds.foldl (fun ks c => killsSet ks c.nodeId true) ks) id =
      if id ∈ olds.map (fun c => c.nodeId) then some true else killsGet ks id
  | [], ks, id => by simp
  | c :: rest, ks, id => by
    rw [List.foldl_cons, killsGet_initKills_aux rest _ id]
    by_cases h : id ∈ rest.map (fun c => c.nodeId)
    · simp [h]
    · by_cases h2 : id = c.nodeId
      · subst h2
        simp [h, killsGet_set_self]
      · have h3 : ¬ c.nodeId = id := fun he => h2 (Eq.symm he)
        simp [h, h2, h3, killsGet_set_other ks c.nodeId id true h2]

theorem killsGet_initKills (olds : List CNode) (id : Nat) :
    killsGet (initKills olds) id =
      if id ∈ olds.map (fun c => c.nodeId) then some true else none :=
  killsGet_initKills_aux olds [] id

theorem initKills_keys_nodup_aux :
    ∀ (olds : List CNode) (ks : Kills), (ks.map (fun e => e.1)).Nodup →
      ((olds.foldl (fun ks c => killsSet ks c.nodeId true) ks).map
        (fun e => e.1)).Nodup
  | [], _, h => h
  | c :: rest, ks, h => by
    rw [List.foldl_cons]
    exact initKills_keys_nodup_aux rest _ (killsSet_keys_nodup ks c.nodeId true h)

theorem initKills_keys_nodup (olds : List CNode) :
    ((initKills olds).map (fun e => e.1)).Nodup :=
  initKills_keys_nodup_aux olds [] (by simp)

/-! ### Step and loop lemmas for `reconcileArrayChildren` -/

theorem recStep_spec (P R : Nat) (idx : IdIndex) (ks : Kills) (nid : Nat)
    (v : RValue) (sp : String) (entry : REntry) (ks1 : Kills) (nid1 : Nat)
    (h : recStep P R idx ks nid v sp = .ok (entry, ks1, nid1)) :
    ((entryClaim entry = none ∧ ks1 = ks) ∨
      (∃ n, entryClaim entry = some n ∧ ks1 = killsSet ks n false)) ∧
    nid ≤ nid1 := by
  cases v with
  | live cid cpar calive cenv =>
    rw [recStep] at h
    by_cases h1 : calive = false
    · rw [if_pos h1] at h; exact Except.noConfusion h
    · rw [if_neg h1] at h
      by_cases h2 : cpar = some P
      · rw [if_pos h2] at h
        by_cases h3 : killsGet ks cid = some true
        · rw [if_pos h3] at h
          simp only [Except.ok.injEq, Prod.mk.injEq] at h
          obtain ⟨rfl, rfl, rfl⟩ := h
          exact ⟨Or.inr ⟨cid, rfl, rfl⟩, Nat.le_refl nid⟩
        · rw [if_neg h3] at h; exact Except.noConfusion h
      · rw [if_neg h2] at h
        by_cases h4 : cpar.isSome = true
        · rw [if_pos h4] at h; exact Except.noConfusion h
        · rw [if_neg h4] at h
          by_cases h5 : R = cid
          · rw [if_pos h5] at h; exact Except.noConfusion h
          · rw [if_neg h5] at h
            by_cases h6 : cenv = true
            · rw [if_pos h6] at h; exact Except.noConfusion h
            · rw [if_neg h6] at h
              simp only [Except.ok.injEq, Prod.mk.injEq] at h
              obtain ⟨rfl, rfl, rfl⟩ := h
              exact ⟨Or.inl ⟨rfl, rfl⟩, Nat.le_refl nid⟩
  | composite fields =>
    rw [recStep] at h
    cases hf : findCand fields idx with
    | some c =>
      rw [hf] at h
      simp only [Except.ok.injEq, Prod.mk.injEq] at h
      obtain ⟨rfl, rfl, rfl⟩ := h
      exact ⟨Or.inr ⟨c.nodeId, rfl, rfl⟩, Nat.le_refl nid⟩
    | none =>
      rw [hf] at h
      simp only [Except.ok.injEq, Prod.mk.injEq] at h
      obtain ⟨rfl, rfl, rfl⟩ := h
      exact ⟨Or.inl ⟨rfl, rfl⟩, Nat.le_succ nid⟩
  | scalar w =>
    rw [recStep] at h
    simp only [Except.ok.injEq, Prod.mk.injEq] at h
    obtain ⟨rfl, rfl, rfl⟩ := h
    exact ⟨Or.inl ⟨rfl, rfl⟩, Nat.le_succ nid⟩

theorem recGo_cons_ok (P R : Nat) (idx : IdIndex) (ks : Kills) (nid : Nat)
    (v : RValue) (sp : String) (rest : List (RValue × String))
    (es : List REntry) (ks2 : Kills) (n2 : Nat)
    (h : recGo P R idx ks nid ((v, sp) :: rest) = .ok (es, ks2, n2)) :
    ∃ entry ks1 nid1 es1,
      recStep P R idx ks nid v sp = .ok (entry, ks1, nid1) ∧
      recGo P R idx ks1 nid1 rest = .ok (es1, ks2, n2) ∧
      es = entry :: es1 := by
  rw [recGo] at h
  cases hs : recStep P R idx ks nid v sp with
  | error e => rw [hs] at h; exact Except.noConfusion h
  | ok t =>
    obtain ⟨entry, ks1, nid1⟩ := t
    rw [hs] at h
    dsimp only at h
    cases hg : recGo P R idx ks1 nid1 rest with
    | error e => rw [hg] at h; exact Except.noConfusion h
    | ok t2 =>
      obtain ⟨es1, ks2b, n2b⟩ := t2
      rw [hg] at h
      dsimp only at h
      simp only [Except.ok.injEq, Prod.mk.injEq] at h
      obtain ⟨rfl, rfl, rfl⟩ := h
      exact ⟨entry, ks1, nid1, es1, rfl, hg, rfl⟩

theorem recGo_nil_ok (P R : Nat) (idx : IdIndex) (ks : Kills) (nid : Nat)
    (es : List REntry) (ks2 : Kills) (n2 : Nat)
    (h : recGo P R idx ks nid [] = .ok (es, ks2, n2)) :
    es = [] ∧ ks2 = ks ∧ n2 = nid := by
  rw [recGo] at h
  simp only [Except.ok.injEq, Prod.mk.injEq] at h
  obtain ⟨rfl, rfl, rfl⟩ := h
  exact ⟨rfl, rfl, rfl⟩

/-- Over one `reconcileArrayChildren` loop, `nodesToBeKilled` ends up with
exactly the claimed candidates unclaimed-flagged off. -/
theorem recGo_kills (P R : Nat) (idx : IdIndex) :
    ∀ (l : List (RValue × String)) (ks : Kills) (nid : Nat)
      (es : List REntry) (ks2 : Kills) (n2 : Nat),
      recGo P R idx ks nid l = .ok (es, ks2, n2) →
      ∀ id, killsGet ks2 id =
        if id ∈ claimedIds es then some false else killsGet ks id
  | [], ks, nid, es, ks2, n2, h, id => by
    obtain ⟨rfl, rfl, rfl⟩ := recGo_nil_ok P R idx ks nid es ks2 n2 h
    simp [claimedIds]
  | (v, sp) :: rest, ks, nid, es, ks2, n2, h, id => by
    obtain ⟨entry, ks1, nid1, es1, hs, hg, rfl⟩ :=
      recGo_cons_ok P R idx ks nid v sp rest es ks2 n2 h
    have ih := recGo_kills P R idx rest ks1 nid1 es1 ks2 n2 hg id
    rcases (recStep_spec P R idx ks nid v sp entry ks1 nid1 hs).1 with
      ⟨hcl, rfl⟩ | ⟨n, hcl, rfl⟩
    · have hcons : claimedIds (entry :: es1) = claimedIds es1 := by
        simp [claimedIds, List.filterMap_cons, hcl]
      rw [hcons]
      exact ih
    · have hcons : claimedIds (entry :: es1) = n :: claimedIds es1 := by
        simp [claimedIds, List.filterMap_cons, hcl]
      rw [hcons, ih]
      by_cases h1 : id ∈ claimedIds es1
      · simp [h1, List.mem_cons]
      · by_cases h2 : id = n
        · subst h2
          simp [h1, killsGet_set_self]
        · simp [h1, h2, killsGet_set_other ks n id false h2]

theorem recGo_keys_nodup (P R : Nat) (idx : IdIndex) :
    ∀ (l : List (RValue × String)) (ks : Kills) (nid : Nat)
      (es : List REntry) (ks2 : Kills) (n2 : Nat),
      recGo P R idx ks nid l = .ok (es, ks2, n2) →
      (ks.map (fun e => e.1)).Nodup → (ks2.map (fun e => e.1)).Nodup
  | [], ks, nid, es, ks2, n2, h, hnd => by
    obtain ⟨rfl, rfl, rfl⟩ := recGo_nil_ok P R idx ks nid es ks2 n2 h
    exact hnd
  | (v, sp) :: rest, ks, nid, es, ks2, n2, h, hnd => by
    obtain ⟨entry, ks1, nid1, es1, hs, hg, rfl⟩ :=
      recGo_cons_ok P R idx ks nid v sp rest es ks2 n2 h
    rcases (recStep_spec P R idx ks nid v sp entry ks1 nid1 hs).1 with
      ⟨_, rfl⟩ | ⟨n, _, rfl⟩
    · exact recGo_keys_nodup P R idx rest ks1 nid1 es1 ks2 n2 hg hnd
    · exact recGo_keys_nodup P R idx rest _ nid1 es1 ks2 n2 hg
        (killsSet_keys_nodup ks n false hnd)

/-- At each position holding a composite new value whose identifier matches,
the result reuses the found candidate's node at the new subpath. -/
theorem recGo_composite_entry (P R : Nat) (idx : IdIndex) :
    ∀ (l : List (RValue × String)) (ks : Kills) (nid : Nat)
      (es : List REntry) (ks2 : Kills) (n2 : Nat) (i : Nat)
      (fields : List (String × JsPrim)) (sp : String) (c : CNode),
      recGo P R idx ks nid l = .ok (es, ks2, n2) →
      l[i]? = some (.composite fields, sp) →
      findCand fields idx = some c →
      es[i]? = some (.reconciled c.nodeId sp)
  | [], _, _, _, _, _, i, _, _, _, _, hi, _ => by simp at hi
  | (v, sp0) :: rest, ks, nid, es, ks2, n2, i, fields, sp, c, h, hi, hf => by
    obtain ⟨entry, ks1, nid1, es1, hs, hg, rfl⟩ :=
      recGo_cons_ok P R idx ks nid v sp0 rest es ks2 n2 h
    cases i with
    | zero =>
      simp only [List.getElem?_cons_zero, Option.some.injEq, Prod.mk.injEq] at hi
      obtain ⟨rfl, rfl⟩ := hi
      rw [recStep, hf] at hs
      simp only [Except.ok.injEq, Prod.mk.injEq] at hs
      obtain ⟨rfl, _, _⟩ := hs
      simp
    | succ j =>
      simp only [List.getElem?_cons_succ] at hi
      simpa using recGo_composite_entry P R idx rest ks1 nid1 es1 ks2 n2 j
        fields sp c hg hi hf

/-- At each position holding a scalar new value, the result is a freshly
instantiated node whose id comes from the (monotone) node-id counter. -/
theorem recGo_scalar_entry (P R : Nat) (idx : IdIndex) :
    ∀ (l : List (RValue × String)) (ks : Kills) (nid : Nat)
      (es : List REntry) (ks2 : Kills) (n2 : Nat) (i : Nat)
      (w : JsPrim) (sp : String),
      recGo P R idx ks nid l = .ok (es, ks2, n2) →
      l[i]? = some (.scalar w, sp) →
      ∃ m, es[i]? = some (.fresh m sp) ∧ nid ≤ m
  | [], _, _, _, _, _, i, _, _, _, hi => by simp at hi
  | (v, sp0) :: rest, ks, nid, es, ks2, n2, i, w, sp, h, hi => by
    obtain ⟨entry, ks1, nid1, es1, hs, hg, rfl⟩ :=
      recGo_cons_ok P R idx ks nid v sp0 rest es ks2 n2 h
    cases i with
    | zero =>
      simp only [List.getElem?_cons_zero, Option.some.injEq, Prod.mk.injEq] at hi
      obtain ⟨rfl, rfl⟩ := hi
      rw [recStep] at hs
      simp only [Except.ok.injEq, Prod.mk.injEq] at hs
      obtain ⟨rfl, _, _⟩ := hs
      exact ⟨nid, by simp, Nat.le_refl nid⟩
    | succ j =>
      simp only [List.getElem?_cons_succ] at hi
      have hmono := (recStep_spec P R idx ks nid v sp0 entry ks1 nid1 hs).2
      obtain ⟨m, hm, hle⟩ := recGo_scalar_entry P R idx rest ks1 nid1 es1
        ks2 n2 j w sp hg hi
      exact ⟨m, by simpa using hm, Nat.le_trans hmono hle⟩

/-- A live node owned by this very parent but not (or no longer) in the
unclaimed candidate set makes the whole call fail. -/
theorem recGo_bad_live_error (P R : Nat) (idx : IdIndex) :
    ∀ (l : List (RValue × String)) (ks : Kills) (nid : Nat) (i : Nat)
      (cid : Nat) (henv : Bool) (sp : String),
      l[i]? = some (.live cid (some P) true henv, sp) →
      killsGet ks cid ≠ some true →
      ∃ e, recGo P R idx ks nid l = .error e
  | [], _, _, i, _, _, _, hi, _ => by simp at hi
  | (v, sp0) :: rest, ks, nid, i, cid, henv, sp, hi, hk => by
    cases i with
    | zero =>
      simp only [List.getElem?_cons_zero, Option.some.injEq, Prod.mk.injEq] at hi
      obtain ⟨rfl, rfl⟩ := hi
      have hstep : recStep P R idx ks nid (.live cid (some P) true henv) sp0 =
          .error alreadyPartMsg := by
        rw [recStep, if_neg (by simp : ¬ (true = false)), if_pos rfl, if_neg hk]
      exact ⟨alreadyPartMsg, by rw [recGo, hstep]⟩
    | succ j =>
      simp only [List.getElem?_cons_succ] at hi
      cases hs : recStep P R idx ks nid v sp0 with
      | error e => exact ⟨e, by rw [recGo, hs]⟩
      | ok t =>
        obtain ⟨entry, ks1, nid1⟩ := t
        have hpres : killsGet ks1 cid ≠ some true := by
          rcases (recStep_spec P R idx ks nid v sp0 entry ks1 nid1 hs).1 with
            ⟨_, rfl⟩ | ⟨n, _, rfl⟩
          · exact hk
          · by_cases h2 : cid = n
            · subst h2
              rw [killsGet_set_self]
              simp
            · rw [killsGet_set_other ks n cid false h2]
              exact hk
        obtain ⟨e, he⟩ := recGo_bad_live_error P R idx rest ks1 nid1 j cid
          henv sp hi hpres
        exact ⟨e, by rw [recGo, hs]; dsimp only; rw [he]⟩

/-! ### Identifier index lemmas -/

theorem bucketGet_mem : ∀ (b : IdBucket) (k : String) (c : CNode),
    bucketGet b k = some c → (k, c) ∈ b
  | [], k, c, h => by rw [bucketGet] at h; exact Option.noConfusion h
  | (k0, c0) :: rest, k, c, h => by
    by_cases hk : k0 = k
    · rw [bucketGet, if_pos hk] at h
      obtain rfl := (Option.some.injEq _ _).mp h
      subst hk
      exact List.mem_cons_self _ _
    · rw [bucketGet, if_neg hk] at h
      exact List.mem_cons_of_mem _ (bucketGet_mem rest k c h)

theorem findCand_sound (fields : List (String × JsPrim)) (Q : CNode → Prop) :
    ∀ (idx : IdIndex) (c : CNode),
      (∀ attr b, (attr, b) ∈ idx → ∀ k c2, (k, c2) ∈ b →
        Q c2 ∧ c2.identifierAttribute = some attr ∧ keyOfC c2 = k) →
      findCand fields idx = some c →
      Q c ∧ candMatches c fields = true
  | [], c, _, h => by rw [findCand] at h; exact Option.noConfusion h
  | (attr, bucket) :: rest, c, hwf, h => by
    have htail := fun a b hb => hwf a b (List.mem_cons_of_mem _ hb)
    rw [findCand] at h
    cases hfg : fieldGet fields attr with
    | none =>
      rw [hfg] at h
      exact findCand_sound fields Q rest c htail h
    | some v =>
      rw [hfg] at h
      dsimp only at h
      by_cases hsn : v.isStrOrNum = true
      · rw [if_pos hsn] at h
        cases hbg : bucketGet bucket v.toKey with
        | some c0 =>
          rw [hbg] at h
          dsimp only at h
          obtain rfl := (Option.some.injEq _ _).mp h
          have hmem := bucketGet_mem bucket v.toKey c0 hbg
          obtain ⟨hQ, hattr, hkey⟩ :=
            hwf attr bucket (List.mem_cons_self _ _) v.toKey c0 hmem
          refine ⟨hQ, ?_⟩
          simp [candMatches, hattr, hfg, hsn, hkey]
        | none =>
          rw [hbg] at h
          exact findCand_sound fields Q rest c htail h
      · rw [if_neg hsn] at h
        exact findCand_sound fields Q rest c htail h

theorem findCand_complete (fields : List (String × JsPrim)) :
    ∀ (idx : IdIndex) (a : String) (b : IdBucket) (v : JsPrim),
      (a, b) ∈ idx → fieldGet fields a = some v → v.isStrOrNum = true →
      (bucketGet b v.toKey).isSome = true →
      (findCand fields idx).isSome = true
  | [], a, b, v, hmem, _, _, _ => absurd hmem (List.not_mem_nil _)
  | (a0, b0) :: rest, a, b, v, hmem, hfg, hsn, hbg => by
    rw [findCand]
    rcases List.mem_cons.mp hmem with heq | htail
    · obtain ⟨rfl, rfl⟩ := Prod.mk.injEq .. |>.mp heq
      rw [hfg]
      dsimp only
      rw [if_pos hsn]
      cases hb2 : bucketGet b v.toKey with
      | some c => rfl
      | none => rw [hb2] at hbg; exact Bool.noConfusion hbg
    · cases hfg0 : fieldGet fields a0 with
      | some v0 =>
        dsimp only
        by_cases hsn0 : v0.isStrOrNum = true
        · rw [if_pos hsn0]
          cases hbg0 : bucketGet b0 v0.toKey with
          | some c => rfl
          | none =>
            exact findCand_complete fields rest a b v htail hfg hsn hbg
        · rw [if_neg hsn0]
          exact findCand_complete fields rest a b v htail hfg hsn hbg
      | none =>
        exact findCand_complete fields rest a b v htail hfg hsn hbg

theorem bucketSet_mem_inv : ∀ (b : IdBucket) (k0 : String) (c0 : CNode)
    (k : String) (c : CNode),
    (k, c) ∈ bucketSet b k0 c0 → (k, c) ∈ b ∨ (k = k0 ∧ c = c0)
  | [], k0, c0, k, c, h => by
    rw [bucketSet] at h
    rcases List.mem_cons.mp h with heq | hnil
    · obtain ⟨rfl, rfl⟩ := Prod.mk.injEq .. |>.mp heq
      exact Or.inr ⟨rfl, rfl⟩
    · exact absurd hnil (List.not_mem_nil _)
  | (k1, c1) :: rest, k0, c0, k, c, h => by
    by_cases hk : k1 = k0
    · rw [bucketSet, if_pos hk] at h
      rcases List.mem_cons.mp h with heq | htail
      · obtain ⟨rfl, rfl⟩ := Prod.mk.injEq .. |>.mp heq
        exact Or.inr ⟨hk, rfl⟩
      · exact Or.inl (List.mem_cons_of_mem _ htail)
    · rw [bucketSet, if_neg hk] at h
      rcases List.mem_cons.mp h with heq | htail
      · exact Or.inl (List.mem_cons.mpr (Or.inl heq))
      · rcases bucketSet_mem_inv rest k0 c0 k c htail with hm | hm
        · exact Or.inl (List.mem_cons_of_mem _ hm)
        · exact Or.inr hm

theorem indexAdd_mem_inv : ∀ (idx : IdIndex) (a k0 : String) (c0 : CNode)
    (attr : String) (b : IdBucket),
    (attr, b) ∈ indexAdd idx a k0 c0 →
    (attr, b) ∈ idx ∨
      (attr = a ∧ ∀ k c, (k, c) ∈ b →
        (∃ b0, (a, b0) ∈ idx ∧ (k, c) ∈ b0) ∨ (k = k0 ∧ c = c0))
  | [], a, k0, c0, attr, b, h => by
    rw [indexAdd] at h
    rcases List.mem_cons.mp h with heq | hnil
    · obtain ⟨rfl, rfl⟩ := Prod.mk.injEq .. |>.mp heq
      refine Or.inr ⟨rfl, ?_⟩
      intro k c hkc
      rcases List.mem_cons.mp hkc with heq2 | hnil2
      · obtain ⟨rfl, rfl⟩ := Prod.mk.injEq .. |>.mp heq2
        exact Or.inr ⟨rfl, rfl⟩
      · exact absurd hnil2 (List.not_mem_nil _)
    · exact absurd hnil (List.not_mem_nil _)
  | (a1, b1) :: rest, a, k0, c0, attr, b, h => by
    by_cases ha : a1 = a
    · rw [indexAdd, if_pos ha] at h
      rcases List.mem_cons.mp h with heq | htail
      · obtain ⟨rfl, rfl⟩ := Prod.mk.injEq .. |>.mp heq
        refine Or.inr ⟨ha, ?_⟩
        intro k c hkc
        rcases bucketSet_mem_inv b1 k0 c0 k c hkc with hm | hm
        · exact Or.inl ⟨b1, by rw [← ha]; exact List.mem_cons_self _ _, hm⟩
        · exact Or.inr hm
      · exact Or.inl (List.mem_cons_of_mem _ htail)
    · rw [indexAdd, if_neg ha] at h
      rcases List.mem_cons.mp h with heq | htail
      · exact Or.inl (List.mem_cons.mpr (Or.inl heq))
      · rcases indexAdd_mem_inv rest a k0 c0 attr b htail with hm | ⟨rfl, hb⟩
        · exact Or.inl (List.mem_cons_of_mem _ hm)
        · refine Or.inr ⟨rfl, ?_⟩
          intro k c hkc
          rcases hb k c hkc with ⟨b0, hb0, hin⟩ | hm
          · exact Or.inl ⟨b0, List.mem_cons_of_mem _ hb0, hin⟩
          · exact Or.inr hm

/-- Every candidate registered in `oldNodesByIdentifier` comes from the old
nodes, under its declared identifier attribute and identifier key. -/
theorem buildIndex_wf_aux (olds : List CNode) :
    ∀ (l : List CNode), (∀ c ∈ l, c ∈ olds) →
    ∀ (idx : IdIndex),
      (∀ attr b, (attr, b) ∈ idx → ∀ k c2, (k, c2) ∈ b →
        c2 ∈ olds ∧ c2.identifierAttribute = some attr ∧ keyOfC c2 = k) →
      ∀ attr b,
        (attr, b) ∈ l.foldl
          (fun idx c =>
            match c.identifierAttribute with
            | some a => indexAdd idx a (keyOfC c) c
            | none => idx) idx →
        ∀ k c2, (k, c2) ∈ b →
          c2 ∈ olds ∧ c2.identifierAttribute = some attr ∧ keyOfC c2 = k
  | [], _, idx, hidx, attr, b, h, k, c2, hkc => hidx attr b h k c2 hkc
  | c :: rest, hl, idx, hidx, attr, b, h, k, c2, hkc => by
    rw [List.foldl_cons] at h
    refine buildIndex_wf_aux olds rest (fun x hx => hl x (List.mem_cons_of_mem _ hx))
      _ ?_ attr b h k c2 hkc
    intro attr2 b2 hmem2 k2 c3 hkc2
    cases hattr : c.identifierAttribute with
    | none =>
      rw [hattr] at hmem2
      exact hidx attr2 b2 hmem2 k2 c3 hkc2
    | some a =>
      rw [hattr] at hmem2
      rcases indexAdd_mem_inv idx a (keyOfC c) c attr2 b2 hmem2 with hm | ⟨heq, hb⟩
      · exact hidx attr2 b2 hm k2 c3 hkc2
      · rcases hb k2 c3 hkc2 with ⟨b0, hb0, hin⟩ | ⟨hk2, hc3⟩
        · rw [heq]
          exact hidx a b0 hb0 k2 c3 hin
        · rw [hc3, hk2, heq]
          exact ⟨hl c (List.mem_cons_self _ _), hattr, rfl⟩

theorem buildIndex_wf (olds : List CNode) :
    ∀ attr b, (attr, b) ∈ buildIndex olds → ∀ k c2, (k, c2) ∈ b →
      c2 ∈ olds ∧ c2.identifierAttribute = some attr ∧ keyOfC c2 = k := by
  intro attr b h k c2 hkc
  exact buildIndex_wf_aux olds olds (fun c hc => hc) []
    (fun attr b hb => absurd hb (List.not_mem_nil _)) attr b h k c2 hkc

theorem bucketGet_bucketSet_self : ∀ (b : IdBucket) (k : String) (c : CNode),
    (bucketGet (bucketSet b k c) k).isSome = true
  | [], k, c => by rw [bucketSet, bucketGet, if_pos rfl]; rfl
  | (k1, c1) :: rest, k, c => by
    by_cases hk : k1 = k
    · rw [bucketSet, if_pos hk, bucketGet, if_pos hk]; rfl
    · rw [bucketSet, if_neg hk, bucketGet, if_neg hk]
      exact bucketGet_bucketSet_self rest k c

theorem bucketGet_bucketSet_pres : ∀ (b : IdBucket) (k0 : String) (c0 : CNode)
    (k : String), (bucketGet b k).isSome = true →
    (bucketGet (bucketSet b k0 c0) k).isSome = true
  | [], k0, c0, k, h => by rw [bucketGet] at h; exact Bool.noConfusion h
  | (k1, c1) :: rest, k0, c0, k, h => by
    by_cases hk0 : k1 = k0
    · rw [bucketSet, if_pos hk0]
      by_cases hk : k1 = k
      · rw [bucketGet, if_pos hk]; rfl
      · rw [bucketGet, if_neg hk]
        rw [bucketGet, if_neg hk] at h
        exact h
    · rw [bucketSet, if_neg hk0]
      by_cases hk : k1 = k
      · rw [bucketGet, if_pos hk]; rfl
      · rw [bucketGet, if_neg hk]
        rw [bucketGet, if_neg hk] at h
        exact bucketGet_bucketSet_pres rest k0 c0 k h

theorem indexAdd_intro : ∀ (idx : IdIndex) (a k0 : String) (c0 : CNode),
    ∃ b, (a, b) ∈ indexAdd idx a k0 c0 ∧ (bucketGet b k0).isSome = true
  | [], a, k0, c0 => by
    refine ⟨[(k0, c0)], ?_, ?_⟩
    · rw [indexAdd]; exact List.mem_cons_self _ _
    · rw [bucketGet, if_pos rfl]; rfl
  | (a1, b1) :: rest, a, k0, c0 => by
    by_cases ha : a1 = a
    · subst ha
      refine ⟨bucketSet b1 k0 c0, ?_, bucketGet_bucketSet_self b1 k0 c0⟩
      rw [indexAdd, if_pos rfl]
      exact List.mem_cons_self _ _
    · obtain ⟨b, hb, hbg⟩ := indexAdd_intro rest a k0 c0
      refine ⟨b, ?_, hbg⟩
      rw [indexAdd, if_neg ha]
      exact List.mem_cons_of_mem _ hb

theorem indexAdd_pres : ∀ (idx : IdIndex) (a0 k0 : String) (c0 : CNode)
    (a k : String),
    (∃ b, (a, b) ∈ idx ∧ (bucketGet b k).isSome = true) →
    ∃ b, (a, b) ∈ indexAdd idx a0 k0 c0 ∧ (bucketGet b k).isSome = true
  | [], a0, k0, c0, a, k, ⟨b, hb, _⟩ => absurd hb (List.not_mem_nil _)
  | (a1, b1) :: rest, a0, k0, c0, a, k, ⟨b, hb, hbg⟩ => by
    by_cases ha0 : a1 = a0
    · rw [indexAdd, if_pos ha0]
      rcases List.mem_cons.mp hb with heq | htail
      · obtain ⟨rfl, rfl⟩ := Prod.mk.injEq .. |>.mp heq
        exact ⟨bucketSet b k0 c0, List.mem_cons_self _ _,
          bucketGet_bucketSet_pres b k0 c0 k hbg⟩
      · exact ⟨b, List.mem_cons_of_mem _ htail, hbg⟩
    · rw [indexAdd, if_neg ha0]
      rcases List.mem_cons.mp hb with heq | htail
      · exact ⟨b, List.mem_cons.mpr (Or.inl heq), hbg⟩
      · obtain ⟨b2, hb2, hbg2⟩ := indexAdd_pres rest a0 k0 c0 a k ⟨b, htail, hbg⟩
        exact ⟨b2, List.mem_cons_of_mem _ hb2, hbg2⟩

theorem buildIndex_pres (a : String) (k : String) :
    ∀ (l : List CNode) (idx : IdIndex),
      (∃ b, (a, b) ∈ idx ∧ (bucketGet b k).isSome = true) →
      ∃ b, (a, b) ∈ l.foldl
          (fun idx c =>
            match c.identifierAttribute with
            | some a => indexAdd idx a (keyOfC c) c
            | none => idx) idx ∧
        (bucketGet b k).isSome = true
  | [], idx, h => h
  | c :: rest, idx, h => by
    rw [List.foldl_cons]
    refine buildIndex_pres a k rest _ ?_
    cases hattr : c.identifierAttribute with
    | none => exact h
    | some a2 => exact indexAdd_pres idx a2 (keyOfC c) c a k h

theorem buildIndex_has_aux (c : CNode) (a : String)
    (ha : c.identifierAttribute = some a) :
    ∀ (l : List CNode) (idx : IdIndex), c ∈ l →
      ∃ b, (a, b) ∈ l.foldl
          (fun idx c =>
            match c.identifierAttribute with
            | some a => indexAdd idx a (keyOfC c) c
            | none => idx) idx ∧
        (bucketGet b (keyOfC c)).isSome = true
  | [], _, hc => absurd hc (List.not_mem_nil _)
  | c2 :: rest, idx, hc => by
    rw [List.foldl_cons]
    rcases List.mem_cons.mp hc with rfl | htail
    · rw [ha]
      exact buildIndex_pres a (keyOfC c) rest _
        (indexAdd_intro idx a (keyOfC c) c)
    · exact buildIndex_has_aux c a ha rest _ htail

/-- A candidate with a declared identifier attribute is present in
`oldNodesByIdentifier` under its attribute and key. -/
theorem buildIndex_has (olds : List CNode) (c : CNode) (a : String)
    (hc : c ∈ olds) (ha : c.identifierAttribute = some a) :
    ∃ b, (a, b) ∈ buildIndex olds ∧ (bucketGet b (keyOfC c)).isSome = true :=
  buildIndex_has_aux c a ha olds [] hc

/-- When a composite new value matches some candidate,
`findReconcilationCandidates` finds one. -/
theorem findCand_of_match (olds : List CNode)
    (fields : List (String × JsPrim)) (c : CNode) (hc : c ∈ olds)
    (hm : candMatches c fields = true) :
    (findCand fields (buildIndex olds)).isSome = true := by
  rw [candMatches] at hm
  cases hattr : c.identifierAttribute with
  | none => rw [hattr] at hm; exact Bool.noConfusion hm
  | some a =>
    rw [hattr] at hm
    dsimp only at hm
    cases hfg : fieldGet fields a with
    | none =>
      rw [hfg] at hm
      dsimp only at hm
      exact Bool.noConfusion hm
    | some v =>
      rw [hfg] at hm
      dsimp only at hm
      obtain ⟨hsn, hkey⟩ := Bool.and_eq_true_iff.mp hm
      have hkey2 : v.toKey = keyOfC c := by simpa using hkey
      obtain ⟨b, hb, hbg⟩ := buildIndex_has olds c a hc hattr
      rw [← hkey2] at hbg
      exact findCand_complete fields (buildIndex olds) a b v hb hfg hsn hbg

theorem reconcileArrayChildren_ok (P R : Nat) (olds : List CNode)
    (news : List RValue) (paths : List String) (startId : Nat) (r : RecResult)
    (h : reconcileArrayChildren P R olds news paths startId = .ok r) :
    ∃ ks2, recGo P R (buildIndex olds) (initKills olds) startId
        (news.zip paths) = .ok (r.res, ks2, r.nextId) ∧
      r.killed = sortAsc ((ks2.filter (fun e => e.2)).map (fun e => e.1)) := by
  rw [reconcileArrayChildren] at h
  cases hg : recGo P R (buildIndex olds) (initKills olds) startId
      (news.zip paths) with
  | error e => rw [hg] at h; exact Except.noConfusion h
  | ok t =>
    obtain ⟨es, ks, nid⟩ := t
    rw [hg] at h
    dsimp only at h
    obtain rfl := (Except.ok.injEq _ _).mp h
    refine ⟨ks, ?_, rfl⟩
    first
    | exact hg
    | rfl

theorem claimedIds_of_get (es : List REntry) (i : Nat) (entry : REntry)
    (n : Nat) (h : es[i]? = some entry) (hc : entryClaim entry = some n) :
    n ∈ claimedIds es := by
  have hmem : entry ∈ es := by
    have := List.getElem?_eq_some_iff.mp h
    obtain ⟨hlt, heq⟩ := this
    exact heq ▸ List.getElem_mem hlt
  exact List.mem_filterMap.mpr ⟨entry, hmem, hc⟩

theorem zip_getElem_some {α β : Type} :
    ∀ (l1 : List α) (l2 : List β) (i : Nat) (a : α) (b : β),
      l1[i]? = some a → l2[i]? = some b → (l1.zip l2)[i]? = some (a, b)
  | [], _, i, a, b, h1, _ => by simp at h1
  | _ :: _, [], i, a, b, _, h2 => by simp at h2
  | x :: xs, y :: ys, 0, a, b, h1, h2 => by
    simp only [List.getElem?_cons_zero, Option.some.injEq] at h1 h2
    simp [List.zip_cons_cons, h1, h2]
  | x :: xs, y :: ys, i + 1, a, b, h1, h2 => by
    simp only [List.getElem?_cons_succ] at h1 h2
    simpa [List.zip_cons_cons] using zip_getElem_some xs ys i a b h1 h2

/-! ### Claim C1 -/

/-- C1: whenever a new composite value carries an identifier field whose name
and key match the registered identifier of one of the reconciliation
candidates, `reconcileArrayChildren` reuses that candidate's node — the
result at that position is a reconciled entry bearing the candidate's
`nodeId` and the new subpath, the candidate is claimed, and it is not
killed. -/
theorem c1_reconcile_reuses_identified_candidate
    (P R : Nat) (olds : List CNode) (news : List RValue) (paths : List String)
    (startId : Nat) (r : RecResult)
    (hok : reconcileArrayChildren P R olds news paths startId = .ok r)
    (i : Nat) (fields : List (String × JsPrim)) (sp : String)
    (hv : news[i]? = some (.composite fields)) (hp : paths[i]? = some sp)
    (hmatch : ∃ c ∈ olds, candMatches c fields = true) :
    ∃ c ∈ olds, candMatches c fields = true ∧
      r.res[i]? = some (.reconciled c.nodeId sp) ∧
      c.nodeId ∈ claimedIds r.res ∧ c.nodeId ∉ r.killed := by
  obtain ⟨ks2, hg, hkilled⟩ :=
    reconcileArrayChildren_ok P R olds news paths startId r hok
  obtain ⟨c0, hc0, hcm⟩ := hmatch
  have hfind : (findCand fields (buildIndex olds)).isSome = true :=
    findCand_of_match olds fields c0 hc0 hcm
  obtain ⟨c1, hc1⟩ := Option.isSome_iff_exists.mp hfind
  obtain ⟨hc1mem, hc1match⟩ := findCand_sound fields (fun c => c ∈ olds)
    (buildIndex olds) c1
    (fun attr b hb k c2 hkc => buildIndex_wf olds attr b hb k c2 hkc) hc1
  have hzip := zip_getElem_some news paths i _ _ hv hp
  have hres := recGo_composite_entry P R (buildIndex olds) (news.zip paths)
    (initKills olds) startId r.res ks2 r.nextId i fields sp c1 hg hzip hc1
  have hclaim : c1.nodeId ∈ claimedIds r.res :=
    claimedIds_of_get r.res i _ c1.nodeId hres rfl
  have hkg := recGo_kills P R (buildIndex olds) (news.zip paths)
    (initKills olds) startId r.res ks2 r.nextId hg c1.nodeId
  rw [if_pos hclaim] at hkg
  have hnodup := recGo_keys_nodup P R (buildIndex olds) (news.zip paths)
    (initKills olds) startId r.res ks2 r.nextId hg (initKills_keys_nodup olds)
  have hnotkilled : c1.nodeId ∉ r.killed := by
    rw [hkilled, mem_sortAsc, mem_killedKeys_iff ks2 hnodup c1.nodeId, hkg]
    intro hmem
    exact Bool.noConfusion ((Option.some.injEq _ _).mp hmem)
  exact ⟨c1, hc1mem, hc1match, hres, hclaim, hnotkilled⟩

/-- Witness for C1: replacing a two-element identified array with a snapshot
carrying `id = 2` reuses node 2 at the new position. -/
theorem c1_witness :
    reconcileArrayChildren 10 10 reconcileOlds reconcileNews reconcilePaths 100 =
      .ok reconcileRunEx ∧
    reconcileNews[0]? = some (RValue.composite [("id", JsPrim.num 2)]) ∧
    reconcilePaths[0]? = some "0" ∧
    (∃ c ∈ reconcileOlds, candMatches c [("id", JsPrim.num 2)] = true) ∧
    (∃ c ∈ reconcileOlds, candMatches c [("id", JsPrim.num 2)] = true ∧
      reconcileRunEx.res[0]? = some (.reconciled c.nodeId "0") ∧
      c.nodeId ∈ claimedIds reconcileRunEx.res ∧
      c.nodeId ∉ reconcileRunEx.killed) := by
  have hok : reconcileArrayChildren 10 10 reconcileOlds reconcileNews
      reconcilePaths 100 = .ok reconcileRunEx := rfl
  have hmatch : ∃ c ∈ reconcileOlds, candMatches c [("id", JsPrim.num 2)] = true :=
    ⟨candB, by simp [reconcileOlds], rfl⟩
  exact ⟨hok, rfl, rfl, hmatch,
    c1_reconcile_reuses_identified_candidate 10 10 reconcileOlds reconcileNews
      reconcilePaths 100 reconcileRunEx hok 0 [("id", JsPrim.num 2)] "0"
      rfl rfl hmatch⟩

/-! ### Claim C2 -/

/-- C2: every candidate never claimed by a new value is killed at the end of
the call; every claimed candidate survives; and a scalar new value never
claims anything — it always yields a freshly instantiated child whose node id
comes from the process counter (hence is no candidate's id, the counter
exceeding all existing ids). -/
theorem c2_unclaimed_killed_claimed_spared_scalars_fresh
    (P R : Nat) (olds : List CNode) (news : List RValue) (paths : List String)
    (startId : Nat) (r : RecResult)
    (hok : reconcileArrayChildren P R olds news paths startId = .ok r) :
    (∀ c ∈ olds, c.nodeId ∉ claimedIds r.res → c.nodeId ∈ r.killed) ∧
    (∀ id, id ∈ claimedIds r.res → id ∉ r.killed) ∧
    (∀ (i : Nat) (v : JsPrim) (sp : String),
      news[i]? = some (.scalar v) → paths[i]? = some sp →
      (∀ c ∈ olds, c.nodeId < startId) →
      ∃ m, r.res[i]? = some (.fresh m sp) ∧ startId ≤ m ∧
        m ∉ olds.map (fun c => c.nodeId)) := by
  obtain ⟨ks2, hg, hkilled⟩ :=
    reconcileArrayChildren_ok P R olds news paths startId r hok
  have hnodup := recGo_keys_nodup P R (buildIndex olds) (news.zip paths)
    (initKills olds) startId r.res ks2 r.nextId hg (initKills_keys_nodup olds)
  have hkg := recGo_kills P R (buildIndex olds) (news.zip paths)
    (initKills olds) startId r.res ks2 r.nextId hg
  refine ⟨?_, ?_, ?_⟩
  · intro c hc hnotclaimed
    rw [hkilled, mem_sortAsc, mem_killedKeys_iff ks2 hnodup c.nodeId,
      hkg c.nodeId, if_neg hnotclaimed, killsGet_initKills,
      if_pos (List.mem_map.mpr ⟨c, hc, rfl⟩)]
  · intro id hid
    rw [hkilled, mem_sortAsc, mem_killedKeys_iff ks2 hnodup id,
      hkg id, if_pos hid]
    intro hmem
    exact Bool.noConfusion ((Option.some.injEq _ _).mp hmem)
  · intro i v sp hv hp hlt
    have hzip := zip_getElem_some news paths i _ _ hv hp
    obtain ⟨m, hm, hle⟩ := recGo_scalar_entry P R (buildIndex olds)
      (news.zip paths) (initKills olds) startId r.res ks2 r.nextId i v sp
      hg hzip
    refine ⟨m, hm, hle, ?_⟩
    intro hmem
    obtain ⟨c, hc, hceq⟩ := List.mem_map.mp hmem
    have := hlt c hc
    omega

/-- Witness for C2 on the same reconciliation run: node 1 is unclaimed and
killed, node 2 is claimed and spared, the scalar yields a fresh node. -/
theorem c2_witness :
    reconcileArrayChildren 10 10 reconcileOlds reconcileNews reconcilePaths 100 =
      .ok reconcileRunEx ∧
    candA ∈ reconcileOlds ∧ candA.nodeId ∉ claimedIds reconcileRunEx.res ∧
    candA.nodeId ∈ reconcileRunEx.killed ∧
    (2 : Nat) ∈ claimedIds reconcileRunEx.res ∧
    (2 : Nat) ∉ reconcileRunEx.killed ∧
    reconcileNews[1]? = some (RValue.scalar (JsPrim.str "s")) ∧
    reconcilePaths[1]? = some "1" ∧
    (∃ m, reconcileRunEx.res[1]? = some (.fresh m "1") ∧ 100 ≤ m ∧
      m ∉ reconcileOlds.map (fun c => c.nodeId)) := by
  have hok : reconcileArrayChildren 10 10 reconcileOlds reconcileNews
      reconcilePaths 100 = .ok reconcileRunEx := rfl
  have h := c2_unclaimed_killed_claimed_spared_scalars_fresh 10 10
    reconcileOlds reconcileNews reconcilePaths 100 reconcileRunEx hok
  have hbound : ∀ c ∈ reconcileOlds, c.nodeId < 100 := by
    intro c hc
    simp only [reconcileOlds, List.mem_cons, List.not_mem_nil, or_false] at hc
    rcases hc with rfl | rfl <;> decide
  refine ⟨hok, by simp [reconcileOlds], by decide, ?_, by decide, ?_, rfl, rfl, ?_⟩
  · exact h.1 candA (by simp [reconcileOlds]) (by decide)
  · exact h.2.1 2 (by decide)
  · exact h.2.2 1 (JsPrim.str "s") "1" rfl rfl hbound

/-! ### Claim C3 -/

/-- C3: a node never gains a second parent — `setParent` fails when the node
already has a different non-null parent; `createNode` rejects a live node
that is not currently a root; and array reconciliation is fatal when handed a
live node owned by this very parent that is not in the candidate set. -/
theorem c3_single_parent_guards :
    (∀ (st : PStore) (id : Nat) (n : PNode) (p q : Nat) (sub : Option String),
      pfind st id = some n → n.parent = some p → q ≠ p →
      setParent st id (some q) sub = .error twiceMsg) ∧
    (∀ (st : PStore) (parent : Option Nat) (subpath : String) (valueId : Nat)
      (tn : PNode) (p : Nat),
      pfind st valueId = some tn → tn.parent = some p →
      createNodeLive st parent subpath valueId = .error alreadyPartMsg) ∧
    (∀ (P R : Nat) (olds : List CNode) (news : List RValue)
      (paths : List String) (startId : Nat) (i : Nat) (cid : Nat)
      (henv : Bool) (sp : String),
      (news.zip paths)[i]? = some (.live cid (some P) true henv, sp) →
      cid ∉ olds.map (fun c => c.nodeId) →
      ∃ e, reconcileArrayChildren P R olds news paths startId = .error e) := by
  refine ⟨?_, ?_, ?_⟩
  · intro st id n p q sub hfind hpar hne
    have h1 : ¬ (n.parent = some q ∧ some n.subpath = sub) := by
      rintro ⟨h, _⟩
      rw [hpar] at h
      exact hne (Eq.symm ((Option.some.injEq _ _).mp h))
    have h2 : n.parent.isSome = true ∧ (some q : Option Nat).isSome = true ∧
        (some q : Option Nat) ≠ n.parent := by
      refine ⟨by rw [hpar]; rfl, rfl, ?_⟩
      rw [hpar]
      intro he
      exact hne ((Option.some.injEq _ _).mp he)
    rw [setParent, hfind]
    dsimp only
    rw [if_neg h1, if_pos h2]
  · intro st parent subpath valueId tn p hfind hpar
    rw [createNodeLive, hfind]
    dsimp only
    rw [if_pos (by rw [hpar]; rfl : tn.parent.isSome = true)]
  · intro P R olds news paths startId i cid henv sp hzip hnot
    have hkg : killsGet (initKills olds) cid ≠ some true := by
      rw [killsGet_initKills, if_neg hnot]
      exact fun he => Option.noConfusion he
    obtain ⟨e, he⟩ := recGo_bad_live_error P R (buildIndex olds)
      (news.zip paths) (initKills olds) startId i cid henv sp hzip hkg
    refine ⟨e, ?_⟩
    rw [reconcileArrayChildren, he]

/-- Witness for C3: re-parenting a child under a second parent fails,
absorbing a non-root live node fails, and reconciling a same-parent live node
outside the candidate set fails. -/
theorem c3_witness :
    pfind pstoreEx 1 = some pnA ∧ pnA.parent = some 2 ∧ (3 : Nat) ≠ 2 ∧
    setParent pstoreEx 1 (some 3) none = .error twiceMsg ∧
    createNodeLive pstoreEx (some 3) "0" 1 = .error alreadyPartMsg ∧
    (∃ e, reconcileArrayChildren 10 10 []
      [RValue.live 5 (some 10) true false] ["0"] 100 = .error e) := by
  have h1 : pfind pstoreEx 1 = some pnA := rfl
  refine ⟨h1, rfl, by decide, ?_, ?_, ?_⟩
  · exact c3_single_parent_guards.1 pstoreEx 1 pnA 2 3 none h1 rfl (by decide)
  · exact c3_single_parent_guards.2.1 pstoreEx (some 3) "0" 1 pnA 2 h1 rfl
  · exact c3_single_parent_guards.2.2 10 10 []
      [RValue.live 5 (some 10) true false] ["0"] 100 0 5 false "0" rfl
      (by simp)

/-! ### Claim C6 -/

theorem removalPatches_length (i : Nat) : ∀ k, (removalPatches i k).length = k
  | 0 => rfl
  | k + 1 => by simp [removalPatches, removalPatches_length i k]

theorem removalPatches_get (i : Nat) :
    ∀ k j, j < k → (removalPatches i k)[j]? = some (removePatch (i + k - 1 - j))
  | 0, j, hj => absurd hj (Nat.not_lt_zero j)
  | k + 1, 0, _ => by
    have harith : i + (k + 1) - 1 - 0 = i + k := by omega
    simp [removalPatches, harith]
  | k + 1, j + 1, hj => by
    have ih := removalPatches_get i k j (Nat.lt_of_succ_lt_succ hj)
    have harith : i + k - 1 - j = i + (k + 1) - 1 - (j + 1) := by omega
    rw [harith] at ih
    simpa [removalPatches] using ih

theorem addPatches_length (i : Nat) (ne : List JsPrim) :
    ∀ n c, (addPatches i ne c n).length = n
  | 0, _ => rfl
  | n + 1, c => by simp [addPatches, addPatches_length i ne n (c + 1)]

theorem addPatches_get (i : Nat) (ne : List JsPrim) :
    ∀ n c j, j < n → (addPatches i ne c n)[j]? =
      some (addPatch (i + (c + j)) (ne.getD (i + (c + j)) JsPrim.undefVal))
  | 0, _, j, hj => absurd hj (Nat.not_lt_zero j)
  | n + 1, c, 0, _ => by simp [addPatches]
  | n + 1, c, j + 1, hj => by
    have ih := addPatches_get i ne n (c + 1) j (Nat.lt_of_succ_lt_succ hj)
    have harith : c + 1 + j = c + (j + 1) := by omega
    rw [harith] at ih
    simpa [addPatches] using ih

theorem spliceA_ok (a : ANode) (index removedCount : Nat) (added : List JsPrim)
    (hw : assertWritableA a = .ok ())
    (hle : index + removedCount ≤ a.elems.length) :
    spliceA a index removedCount added =
      .ok ({ a with elems :=
          a.elems.take index ++ added ++ a.elems.drop (index + removedCount) },
        removalPatches index removedCount ++
          addPatches index
            (a.elems.take index ++ added ++ a.elems.drop (index + removedCount))
            0 added.length) := by
  have hi : min index a.elems.length = index := Nat.min_eq_left (by omega)
  have hk : min removedCount (a.elems.length - index) = removedCount :=
    Nat.min_eq_left (by omega)
  rw [spliceA, hw]
  simp only [hi, hk]

/-- C6: every array splice that removes `k` elements at `index` and adds `m`
emits exactly one `remove` patch per removed element, highest-index-first
(`index + k - 1` down to `index`), followed by one `add` patch per added
element, lowest-index-first (`index` up to `index + m - 1`), each `add`
carrying the post-splice child snapshot — no bulk splice patch. Splicing
`"c"` into `["a","b"]` at index 1 emits exactly
`[(op: add, path: /1, value: c)]` and yields snapshot `["a","c","b"]`. -/
theorem c6_splice_patch_order :
    (∀ (a : ANode) (index removedCount : Nat) (added : List JsPrim)
        (a2 : ANode) (ps : List Patch),
      index + removedCount ≤ a.elems.length →
      spliceA a index removedCount added = .ok (a2, ps) →
      a2.elems = a.elems.take index ++ added ++ a.elems.drop (index + removedCount) ∧
      ps = removalPatches index removedCount ++
        addPatches index a2.elems 0 added.length ∧
      ps.length = removedCount + added.length ∧
      (∀ j, j < removedCount →
        ps[j]? = some (removePatch (index + removedCount - 1 - j))) ∧
      (∀ j, j < added.length →
        ps[removedCount + j]? =
          some (addPatch (index + j) (added.getD j JsPrim.undefVal)))) ∧
    (spliceA abNode 1 0 [JsPrim.str "c"] =
      .ok (acbNode, [addPatch 1 (JsPrim.str "c")])) := by
  constructor
  · intro a index removedCount added a2 ps hle hok
    have hw : assertWritableA a = .ok () := by
      rw [spliceA] at hok
      cases hwa : assertWritableA a with
      | error e => rw [hwa] at hok; cases hok
      | ok u => cases u; rfl
    rw [spliceA_ok a index removedCount added hw hle] at hok
    have hpair := (Except.ok.injEq _ _).mp hok
    have ha2 : ({ a with elems := a.elems.take index ++ added ++ a.elems.drop (index + removedCount) } : ANode) = a2 :=
      congrArg Prod.fst hpair
    have hps : removalPatches index removedCount ++
        addPatches index
          (a.elems.take index ++ added ++ a.elems.drop (index + removedCount))
          0 added.length = ps := congrArg Prod.snd hpair
    have helems : a2.elems =
        a.elems.take index ++ added ++ a.elems.drop (index + removedCount) := by
      rw [← ha2]
    have htake : (a.elems.take index).length = index :=
      List.length_take_of_le (by omega)
    refine ⟨helems, by rw [← hps, helems], ?_, ?_, ?_⟩
    · rw [← hps]
      simp [removalPatches_length, addPatches_length]
    · intro j hj
      rw [← hps, List.getElem?_append, removalPatches_length, if_pos hj]
      exact removalPatches_get index removedCount j hj
    · intro j hj
      rw [← hps, List.getElem?_append, removalPatches_length,
        if_neg (by omega : ¬ removedCount + j < removedCount)]
      have hsub : removedCount + j - removedCount = j := by omega
      rw [hsub]
      rw [addPatches_get index _ added.length 0 j hj]
      have hval : (a.elems.take index ++ added ++
          a.elems.drop (index + removedCount)).getD (index + (0 + j))
            JsPrim.undefVal = added.getD j JsPrim.undefVal := by
        rw [List.append_assoc]
        have h0j : index + (0 + j) = (a.elems.take index).length + j := by
          rw [htake]; omega
        rw [List.getD_eq_getElem?_getD, List.getD_eq_getElem?_getD, h0j,
          List.getElem?_append,
          if_neg (by omega : ¬ (a.elems.take index).length + j < (a.elems.take index).length),
          Nat.add_sub_cancel_left, List.getElem?_append, if_pos hj]
      rw [hval]
      have hidx : index + (0 + j) = index + j := by omega
      rw [hidx]
  · rfl

/-- Witness for C6's general part, instantiated at the scenario splice. -/
theorem c6_witness :
    ((1 : Nat) + 0 ≤ abNode.elems.length) ∧
    acbNode.elems =
      abNode.elems.take 1 ++ [JsPrim.str "c"] ++ abNode.elems.drop (1 + 0) ∧
    ([addPatch 1 (JsPrim.str "c")] : List Patch).length = 0 + 1 := by
  have h := (c6_splice_patch_order.1 abNode 1 0 [JsPrim.str "c"] acbNode
    [addPatch 1 (JsPrim.str "c")] (by decide) c6_splice_patch_order.2)
  exact ⟨by decide, h.1, h.2.2.1⟩

/-! ### Claim C9 -/

/-- C9: `applySnapshot` type-checks the snapshot before touching the stored
value — on validation failure it fails and the stored value is unchanged (no
partial application); on success the update runs as a pseudo action that
bypasses protection (it succeeds even on a protected tree outside an action,
for any live node) while still producing the patch events of the replace
splice and a snapshot event. -/
theorem c9_applySnapshot_typecheck_pseudoaction
    (validElem : JsPrim → Bool) (a : ANode) (snap : List JsPrim) :
    (snap.all validElem = false →
      applySnapshotA validElem a snap =
        .error "Error while converting snapshot to array type" ∧
      applySnapshotRun validElem a snap = a) ∧
    (snap.all validElem = true → a.alive = true →
      applySnapshotA validElem a snap =
        .ok ({ a with elems := snap },
          removalPatches 0 a.elems.length ++ addPatches 0 snap 0 snap.length,
          [snap])) := by
  constructor
  · intro hinvalid
    have ht : typecheckArray validElem snap =
        .error "Error while converting snapshot to array type" := by
      rw [typecheckArray, hinvalid]
      rfl
    constructor
    · rw [applySnapshotA, ht]
    · rw [applySnapshotRun, applySnapshotA, ht]
  · intro hvalid halive
    have ht : typecheckArray validElem snap = .ok () := by
      rw [typecheckArray, hvalid]
      rfl
    have hw : assertWritableA { a with runningAction := true } = .ok () := by
      rw [assertWritableA]
      simp [halive]
    have hsp := spliceA_ok { a with runningAction := true } 0
      a.elems.length snap hw (by simp)
    have helem : ({ a with runningAction := true } : ANode).elems = a.elems := rfl
    rw [helem] at hsp
    have hnew : a.elems.take 0 ++ snap ++ a.elems.drop (0 + a.elems.length)
        = snap := by
      simp
    rw [hnew] at hsp
    rw [applySnapshotA, ht, hsp]
    rfl

/-- Witness for C9: validating strings, rejecting `[null]` unchanged, and
applying `["x"]` on a protected node outside an action. -/
theorem c9_witness :
    (([JsPrim.nullVal] : List JsPrim).all isStrElem = false) ∧
    applySnapshotA isStrElem { elems := [JsPrim.str "a"] } [JsPrim.nullVal] =
      .error "Error while converting snapshot to array type" ∧
    applySnapshotRun isStrElem { elems := [JsPrim.str "a"] } [JsPrim.nullVal] =
      { elems := [JsPrim.str "a"] } ∧
    (([JsPrim.str "x"] : List JsPrim).all isStrElem = true) ∧
    ({ elems := [JsPrim.str "a"] } : ANode).protectionEnabled = true ∧
    ({ elems := [JsPrim.str "a"] } : ANode).runningAction = false ∧
    applySnapshotA isStrElem { elems := [JsPrim.str "a"] } [JsPrim.str "x"] =
      .ok ({ elems := [JsPrim.str "x"] },
        removalPatches 0 1 ++ addPatches 0 [JsPrim.str "x"] 0 1,
        [[JsPrim.str "x"]]) :=
  have hbad := (c9_applySnapshot_typecheck_pseudoaction isStrElem
    { elems := [JsPrim.str "a"] } [JsPrim.nullVal]).1 rfl
  have hgood := (c9_applySnapshot_typecheck_pseudoaction isStrElem
    { elems := [JsPrim.str "a"] } [JsPrim.str "x"]).2 rfl rfl
  ⟨rfl, hbad.1, hbad.2, rfl, rfl, rfl, hgood⟩

/-! ### Claim C8 -/

theorem resolvePathGo_child (t : NTree) (f : Bool) (p : RPath) (key : String)
    (rest : List String) (h0 : ¬ key = "") (h1 : ¬ key = "..")
    (h2 : ¬ key = ".") :
    resolvePathGo t f (some p) (key :: rest) =
      (match getChildNodeAt t p key with
      | .error e => .error e
      | .ok c => resolvePathGo t f c rest) := by
  conv_lhs => rw [resolvePathGo.eq_def]
  dsimp only
  rw [if_neg h0, if_neg h1, if_neg h2]

theorem getChildNodeAt_eq (t : NTree) (p : RPath) (s : NTree) (key : String)
    (h : subtreeAt t p = some s) :
    getChildNodeAt t p key =
      (if s.recOf.alive = true then
        match parseIntJS key with
        | none => Except.error (notChildMsg key)
        | some i =>
          if i < 0 then Except.ok none
          else if i < (s.numKids : Int) then Except.ok (some (i.toNat :: p))
          else Except.error (notChildMsg key)
      else Except.error deadMsg) := by
  rw [getChildNodeAt, h]

/-- A key that `parseInt` accepts is not one of the special segments. -/
theorem parseInt_some_not_special (key : String) (i : Int)
    (hkey : parseIntJS key = some i) :
    ¬ key = "" ∧ ¬ key = ".." ∧ ¬ key = "." := by
  refine ⟨?_, ?_, ?_⟩ <;> intro h <;> subst h <;> cases hkey

/-- C8 (amended): `resolvePath` treats an empty segment as a jump to the
current tree's root, `".."` as a move to the parent — failing if
`failIfResolveFails` is true and returning `undefined` if it is false when
there is no parent —, `"."` as staying put, and any other segment as a child
lookup; but a child lookup that does not resolve (an out-of-range or
unparseable key) raises the `Not a child` error from the type's
`getChildNode` regardless of `failIfResolveFails`. -/
theorem c8_resolvePath_segments :
    (∀ (t : NTree) (f : Bool) (p : RPath) (rest : List String),
      resolvePathGo t f (some p) ("" :: rest) = resolvePathGo t f (some []) rest) ∧
    (∀ (t : NTree) (f : Bool) (k : Nat) (p : RPath) (rest : List String),
      resolvePathGo t f (some (k :: p)) (".." :: rest) =
        resolvePathGo t f (some p) rest) ∧
    (∀ (t : NTree) (rest : List String),
      resolvePathGo t true (some []) (".." :: rest) =
        .error (couldNotResolveMsg "..")) ∧
    (∀ (t : NTree) (rest : List String),
      resolvePathGo t false (some []) (".." :: rest) = .ok none) ∧
    (∀ (t : NTree) (f : Bool) (cur : Option RPath) (rest : List String),
      resolvePathGo t f cur ("." :: rest) = resolvePathGo t f cur rest) ∧
    (∀ (t : NTree) (f : Bool) (p : RPath) (s : NTree) (key : String) (i : Nat)
      (rest : List String), subtreeAt t p = some s → s.recOf.alive = true →
      parseIntJS key = some (i : Int) → i < s.numKids →
      resolvePathGo t f (some p) (key :: rest) =
        resolvePathGo t f (some (i :: p)) rest) ∧
    (∀ (t : NTree) (f : Bool) (p : RPath) (s : NTree) (key : String) (i : Nat)
      (rest : List String), subtreeAt t p = some s → s.recOf.alive = true →
      parseIntJS key = some (i : Int) → s.numKids ≤ i →
      resolvePathGo t f (some p) (key :: rest) = .error (notChildMsg key)) ∧
    (∀ (t : NTree) (f : Bool) (p : RPath) (s : NTree) (key : String)
      (rest : List String), subtreeAt t p = some s → s.recOf.alive = true →
      parseIntJS key = none → ¬ key = "" → ¬ key = ".." → ¬ key = "." →
      resolvePathGo t f (some p) (key :: rest) = .error (notChildMsg key)) := by
  refine ⟨fun t f p rest => rfl, fun t f k p rest => rfl,
    fun t rest => rfl, fun t rest => rfl, fun t f cur rest => rfl, ?_, ?_, ?_⟩
  · intro t f p s key i rest hs halive hkey hlt
    obtain ⟨h0, h1, h2⟩ := parseInt_some_not_special key _ hkey
    have hnneg : ¬ ((i : Int) < 0) := by omega
    have hlt2 : (i : Int) < (s.numKids : Int) := by exact_mod_cast hlt
    have hg : getChildNodeAt t p key = Except.ok (some (i :: p)) := by
      simp [getChildNodeAt, hs, halive, hkey, hnneg, hlt2]
    rw [resolvePathGo_child t f p key rest h0 h1 h2, hg]
  · intro t f p s key i rest hs halive hkey hge
    obtain ⟨h0, h1, h2⟩ := parseInt_some_not_special key _ hkey
    have hnneg : ¬ ((i : Int) < 0) := by omega
    have hnlt : ¬ ((i : Int) < (s.numKids : Int)) := by
      exact_mod_cast not_lt.mpr hge
    have hg : getChildNodeAt t p key = Except.error (notChildMsg key) := by
      simp [getChildNodeAt, hs, halive, hkey, hnneg, hnlt]
    rw [resolvePathGo_child t f p key rest h0 h1 h2, hg]
  · intro t f p s key rest hs halive hkey h0 h1 h2
    have hg : getChildNodeAt t p key = Except.error (notChildMsg key) := by
      simp [getChildNodeAt, hs, halive, hkey]
    rw [resolvePathGo_child t f p key rest h0 h1 h2, hg]

/-- Witness for C8 on `twoKidTree`: root jump, parent moves, staying put,
resolving the child `"1"`, and the missing child `"5"`. -/
theorem c8_witness :
    resolvePathGo twoKidTree true (some [0]) ["", "1"] =
      resolvePathGo twoKidTree true (some []) ["1"] ∧
    resolvePathGo twoKidTree true (some [0]) [".."] =
      resolvePathGo twoKidTree true (some []) [] ∧
    resolvePathGo twoKidTree true (some []) [".."] =
      .error (couldNotResolveMsg "..") ∧
    resolvePathGo twoKidTree false (some []) [".."] = .ok none ∧
    resolvePathGo twoKidTree false (some []) ["."] =
      resolvePathGo twoKidTree false (some []) [] ∧
    subtreeAt twoKidTree [] = some twoKidTree ∧
    twoKidTree.recOf.alive = true ∧
    parseIntJS "1" = some ((1 : Nat) : Int) ∧ (1 : Nat) < twoKidTree.numKids ∧
    resolvePathGo twoKidTree true (some []) ["1"] =
      resolvePathGo twoKidTree true (some [1]) [] ∧
    parseIntJS "5" = some ((5 : Nat) : Int) ∧ twoKidTree.numKids ≤ 5 ∧
    resolvePathGo twoKidTree false (some []) ["5"] = .error (notChildMsg "5") :=
  ⟨c8_resolvePath_segments.1 twoKidTree true [0] ["1"],
    c8_resolvePath_segments.2.1 twoKidTree true 0 [] [],
    c8_resolvePath_segments.2.2.1 twoKidTree [],
    c8_resolvePath_segments.2.2.2.1 twoKidTree [],
    c8_resolvePath_segments.2.2.2.2.1 twoKidTree false (some []) [],
    rfl, rfl, rfl, by decide,
    c8_resolvePath_segments.2.2.2.2.2.1 twoKidTree true [] twoKidTree "1" 1 []
      rfl rfl rfl (by decide),
    rfl, by decide,
    c8_resolvePath_segments.2.2.2.2.2.2.1 twoKidTree false [] twoKidTree "5" 5 []
      rfl rfl rfl (by decide)⟩

/-- Counterexample to C8 as stated: resolving the missing child `"5"` with
`failIfResolveFails = false` (the `tryResolve` form) throws `Not a child`
instead of returning `undefined`. -/
theorem c8_counterexample :
    resolvePathAt twoKidTree [] ["5"] false = .error (notChildMsg "5") ∧
    ¬ resolvePathAt twoKidTree [] ["5"] false = .ok none :=
  ⟨rfl, fun h => Except.noConfusion h⟩

/-- Witness for C7: in the protected `twoKidTree`, mutating the child at
`[0]` outside an action fails, and in `actionTree` (leaf running an action)
the same gate passes. -/
theorem c7_witness :
    subtreeAt twoKidTree [0] = some
      (NTree.node { valueIsTreeNode := false, scalarValue := JsPrim.str "a" } NForest.nil) ∧
    assertWritableAt twoKidTree [0] = .error protectedMsg ∧
    subtreeAt actionTree [0] = some
      (NTree.node { runningAction := true, valueIsTreeNode := false } NForest.nil) ∧
    assertWritableAt actionTree [0] = .ok () := by
  have h1 : subtreeAt twoKidTree [0] = some
      (NTree.node { valueIsTreeNode := false, scalarValue := JsPrim.str "a" } NForest.nil) := rfl
  have h2 : subtreeAt actionTree [0] = some
      (NTree.node { runningAction := true, valueIsTreeNode := false } NForest.nil) := rfl
  refine ⟨h1, ?_, h2, ?_⟩
  · exact (c7_assertWritable_protection_gate twoKidTree [0] _ h1).2.1 rfl rfl
      (by intro r hr; fin_cases hr <;> rfl)
  · exact (c7_assertWritable_protection_gate actionTree [0] _ h2).2.2 rfl
      (Or.inl ⟨{ runningAction := true, valueIsTreeNode := false }, by
        rw [chainRecs_cons_some actionTree 0 [] _ h2]
        exact List.mem_cons_self _ _, rfl⟩)

end MST
